import Mathlib

/-!
Verification of the UTXO-nursery / stray-output-pool subsystem
(repository lverba/lnd: nursery utxonursery code, strayoutputpool/pool.go,
contractcourt/spendable_output.go).

The Go source is shallowly embedded: byte streams are lists of naturals
(each a byte value), machine integers are Nat/Int with explicit wrapping
where conversions occur, fallible operations return Except, and the
side-effecting parts of the incubator (store mutation, broadcast,
notification registration) are explicit state passing plus an event trace.

External collaborators whose code is not part of this repository snapshot
(the lnwallet sign-descriptor codec, the wire MsgTx codec, the weight
estimator, the nursery Store implementation) are modelled from the
specification; every such definition carries a doc comment saying so.
-/

set_option maxRecDepth 16384

namespace LndNursery

/-! ## Bytes and machine integers -/

/-- Big-endian byte encoding of a value into exactly `n` bytes
(most significant first), as done by `binary.BigEndian.PutUintXX`. -/
def natToBe : Nat → Nat → List Nat
  | 0, _ => []
  | n + 1, v => natToBe n (v / 256) ++ [v % 256]

/-- Big-endian interpretation of a byte list, as done by
`binary.BigEndian.UintXX`. -/
def beToNat (l : List Nat) : Nat :=
  l.foldl (fun acc b => acc * 256 + b) 0

/-- Little-endian byte encoding into exactly `n` bytes (used by the
bitcoin wire varint encoding for its multi-byte forms). -/
def natToLe : Nat → Nat → List Nat
  | 0, _ => []
  | n + 1, v => v % 256 :: natToLe n (v / 256)

/-- Little-endian interpretation of a byte list. -/
def leToNat : List Nat → Nat
  | [] => 0
  | b :: rest => b + 256 * leToNat rest

@[simp] theorem natToBe_length (n v : Nat) : (natToBe n v).length = n := by
  induction n generalizing v with
  | zero => simp [natToBe]
  | succ n ih => simp [natToBe, ih]

@[simp] theorem natToLe_length (n v : Nat) : (natToLe n v).length = n := by
  induction n generalizing v with
  | zero => simp [natToLe]
  | succ n ih => simp [natToLe, ih]

theorem beToNat_append (l₁ l₂ : List Nat) :
    beToNat (l₁ ++ l₂) = beToNat l₁ * 256 ^ l₂.length + beToNat l₂ := by
  induction l₂ using List.reverseRecOn with
  | nil => simp [beToNat]
  | append_singleton l b ih =>
      simp only [beToNat, List.foldl_append, List.foldl_cons, List.foldl_nil] at *
      rw [ih]
      simp [List.length_append, pow_succ]
      ring

theorem beToNat_natToBe (n v : Nat) (h : v < 256 ^ n) :
    beToNat (natToBe n v) = v := by
  induction n generalizing v with
  | zero =>
      simp [natToBe, beToNat]
      omega
  | succ n ih =>
      have hdiv : v / 256 < 256 ^ n := by
        rw [Nat.div_lt_iff_lt_mul (by norm_num)]
        calc v < 256 ^ (n + 1) := h
        _ = 256 ^ n * 256 := by rw [pow_succ]
      rw [natToBe, beToNat_append, ih (v / 256) hdiv]
      simp [beToNat]
      omega

theorem leToNat_natToLe (n v : Nat) (h : v < 256 ^ n) :
    leToNat (natToLe n v) = v := by
  induction n generalizing v with
  | zero =>
      simp [natToLe, leToNat]
      omega
  | succ n ih =>
      have hdiv : v / 256 < 256 ^ n := by
        rw [Nat.div_lt_iff_lt_mul (by norm_num)]
        calc v < 256 ^ (n + 1) := h
        _ = 256 ^ n * 256 := by rw [pow_succ]
      rw [natToLe, leToNat, ih (v / 256) hdiv]
      omega

/-- Go conversion `uint64(x)` of an `int64` value: reduction modulo 2^64. -/
def u64OfInt (i : Int) : Nat := (i % (2 ^ 64 : Int)).toNat

/-- Go conversion `int64(x)` of a `uint64` value: two's-complement
reinterpretation. -/
def intOfU64 (n : Nat) : Int :=
  if n < 2 ^ 63 then (n : Int) else (n : Int) - 2 ^ 64

theorem u64OfInt_lt (i : Int) : u64OfInt i < 2 ^ 64 := by
  have h := Int.emod_lt_of_pos i (b := 2 ^ 64) (by norm_num)
  have h0 := Int.emod_nonneg i (b := 2 ^ 64) (by norm_num)
  unfold u64OfInt
  omega

theorem intOfU64_u64OfInt (i : Int) (hlo : -(2 ^ 63) ≤ i) (hhi : i < 2 ^ 63) :
    intOfU64 (u64OfInt i) = i := by
  unfold intOfU64 u64OfInt
  rcases le_or_lt 0 i with hpos | hneg
  · have : i % (2 ^ 64 : Int) = i := Int.emod_eq_of_lt hpos (by omega)
    rw [this]
    have : (0:Int) ≤ i := hpos
    split <;> omega
  · have : i % (2 ^ 64 : Int) = i + 2 ^ 64 := by
      have : (i + 2 ^ 64) % (2 ^ 64 : Int) = i % (2 ^ 64 : Int) := by
        simp
      rw [← this]
      exact Int.emod_eq_of_lt (by omega) (by omega)
    rw [this]
    split <;> omega

/-! ## Reader model

Decoders read from a `List Nat` of bytes and return an `Except` carrying
the parsed value together with the unread remainder of the stream, so
that sequential field reads translate to monadic binds. -/

/-- Errors surfaced by the binary decoders. -/
inductive CodecErr where
  | eof
  | unexpectedEof
  | nonCanonicalVarInt
  | varBytesTooLong
  deriving DecidableEq, Repr

/-- Model of a checked-but-not-length-verified `r.Read(scratch[:n])` on a
bytes reader: the Go code only tests the returned error, which (for a
bytes reader) is non-nil exactly when no byte at all is available; when
fewer than `n` bytes remain the call succeeds with a short read, which
this model returns as a list shorter than `n`. (Go leaves the unwritten
tail of the scratch buffer unchanged; the decoders below pad with zeros
instead, which is immaterial because every stream on which a short read
occurs makes a subsequent read fail before the garbage value is used.) -/
def goRead (n : Nat) (s : List Nat) : Except CodecErr (List Nat × List Nat) :=
  if s.isEmpty then .error .eof else .ok (s.take n, s.drop n)

/-- Model of `io.ReadFull(r, buf[:n])`: succeeds only when `n` bytes are
available; returns `io.EOF` when the stream is empty and
`io.ErrUnexpectedEOF` when it holds between one and `n - 1` bytes. -/
def readFull (n : Nat) (s : List Nat) : Except CodecErr (List Nat × List Nat) :=
  if n ≤ s.length then .ok (s.take n, s.drop n)
  else if s.isEmpty then .error .eof
  else .error .unexpectedEof

@[simp] theorem exceptBindOk {ε α β : Type} (a : α) (f : α → Except ε β) :
    (Except.ok a : Except ε α) >>= f = f a := rfl

@[simp] theorem exceptBindErr {ε α β : Type} (e : ε) (f : α → Except ε β) :
    (Except.error e : Except ε α) >>= f = Except.error e := rfl

instance {ε α : Type} [DecidableEq ε] [DecidableEq α] :
    DecidableEq (Except ε α) := fun a b =>
  match a, b with
  | .error e, .error f => decidable_of_iff (e = f) (by simp)
  | .ok x, .ok y => decidable_of_iff (x = y) (by simp)
  | .error _, .ok _ => isFalse (by simp)
  | .ok _, .error _ => isFalse (by simp)

/-- Whether an `Except` computation failed. -/
def isFail {ε α : Type} : Except ε α → Bool
  | .error _ => true
  | .ok _ => false

@[simp] theorem isFail_error {ε α : Type} (e : ε) :
    isFail (.error e : Except ε α) = true := rfl

@[simp] theorem isFail_ok {ε α : Type} (a : α) :
    isFail (.ok a : Except ε α) = false := rfl

/-- Interpret the first `n` bytes of a (possibly short) read result in
big-endian order, padding missing bytes with zeros (see `goRead`). -/
def beVal (n : Nat) (bs : List Nat) : Nat :=
  beToNat (bs.take n ++ List.replicate (n - bs.length) 0)

@[simp] theorem goRead_nil (n : Nat) :
    goRead n [] = .error .eof := by simp [goRead]

@[simp] theorem readFull_nil_pos (n : Nat) (h : 0 < n) :
    readFull n [] = .error .eof := by
  simp [readFull]
  omega

theorem goRead_exact (n : Nat) (bs r : List Nat) (hlen : bs.length = n)
    (hne : 0 < n) : goRead n (bs ++ r) = .ok (bs, r) := by
  subst hlen
  have hbs : bs ≠ [] := by
    intro h
    subst h
    simp at hne
  unfold goRead
  rw [if_neg (by simp [List.isEmpty_iff, hbs]), List.take_left, List.drop_left]

theorem goRead_short (n : Nat) (s : List Nat) (hne : s ≠ [])
    (hlt : s.length ≤ n) : goRead n s = .ok (s, []) := by
  simp [goRead, List.isEmpty_iff, hne, List.take_of_length_le hlt,
    List.drop_of_length_le hlt]

theorem readFull_exact (n : Nat) (bs r : List Nat) (hlen : bs.length = n) :
    readFull n (bs ++ r) = .ok (bs, r) := by
  subst hlen
  unfold readFull
  rw [if_pos (by simp), List.take_left, List.drop_left]

theorem readFull_one_cons (a : Nat) (s : List Nat) :
    readFull 1 (a :: s) = .ok ([a], s) :=
  readFull_exact 1 [a] s rfl

@[simp] theorem beVal_singleton (a : Nat) : beVal 1 [a] = a := by
  simp [beVal, beToNat, List.replicate]

theorem readFull_short (n : Nat) (s : List Nat) (hlt : s.length < n) :
    isFail (readFull n s) = true := by
  unfold readFull
  rw [if_neg (by omega)]
  split <;> simp

/-! ## Bitcoin wire varint / var-bytes (btcd wire package)

`writeOutpoint` in the nursery serializes the outpoint hash through
`wire.WriteVarBytes`, which prefixes the raw bytes with a canonical
variable-length integer; these definitions embed that btcd encoding. -/

/-- btcd `wire.WriteVarInt`: canonical variable-length integer. -/
def writeVarInt (n : Nat) : List Nat :=
  if n < 0xfd then [n]
  else if n ≤ 0xffff then 0xfd :: natToLe 2 n
  else if n ≤ 0xffffffff then 0xfe :: natToLe 4 n
  else 0xff :: natToLe 8 n

/-- btcd `wire.ReadVarInt`: reads the discriminant byte then the payload,
rejecting non-canonical encodings. Reads use full-read semantics (the
wire package decodes through `io.ReadFull`). -/
def readVarInt (s : List Nat) : Except CodecErr (Nat × List Nat) := do
  let (d, s) ← readFull 1 s
  match beVal 1 d with
  | 0xfd => do
      let (b, s) ← readFull 2 s
      let v := leToNat b
      if v < 0xfd then .error .nonCanonicalVarInt else .ok (v, s)
  | 0xfe => do
      let (b, s) ← readFull 4 s
      let v := leToNat b
      if v ≤ 0xffff then .error .nonCanonicalVarInt else .ok (v, s)
  | 0xff => do
      let (b, s) ← readFull 8 s
      let v := leToNat b
      if v ≤ 0xffffffff then .error .nonCanonicalVarInt else .ok (v, s)
  | d => .ok (d, s)

/-- btcd `wire.WriteVarBytes`: varint length prefix followed by the raw
bytes. -/
def writeVarBytes (b : List Nat) : List Nat :=
  writeVarInt b.length ++ b

/-- btcd `wire.ReadVarBytes` with limit `maxAllowed`: reads the varint
count, rejects counts above the limit, then reads exactly that many
bytes. -/
def readVarBytes (maxAllowed : Nat) (s : List Nat) :
    Except CodecErr (List Nat × List Nat) := do
  let (count, s) ← readVarInt s
  if count > maxAllowed then .error .varBytesTooLong
  else readFull count s

theorem readVarInt_writeVarInt (n : Nat) (r : List Nat) (h : n < 2 ^ 64) :
    readVarInt (writeVarInt n ++ r) = .ok (n, r) := by
  unfold writeVarInt readVarInt
  split
  · next hlt =>
      simp only [List.cons_append, List.nil_append, readFull_one_cons,
        exceptBindOk, beVal_singleton]
      have h253 : ¬ n = 0xfd := by omega
      have h254 : ¬ n = 0xfe := by omega
      have h255 : ¬ n = 0xff := by omega
      simp [h253, h254, h255]
  · next hge =>
      split
      · next hle =>
          simp only [List.cons_append, readFull_one_cons, exceptBindOk,
            beVal_singleton]
          rw [readFull_exact 2 (natToLe 2 n) r (by simp)]
          simp only [exceptBindOk]
          rw [leToNat_natToLe 2 n (by omega)]
          simp
          omega
      · next hgt =>
          split
          · next hle4 =>
              simp only [List.cons_append, readFull_one_cons, exceptBindOk,
                beVal_singleton]
              rw [readFull_exact 4 (natToLe 4 n) r (by simp)]
              simp only [exceptBindOk]
              rw [leToNat_natToLe 4 n (by omega)]
              simp
              omega
          · next hgt4 =>
              simp only [List.cons_append, readFull_one_cons, exceptBindOk,
                beVal_singleton]
              rw [readFull_exact 8 (natToLe 8 n) r (by simp)]
              simp only [exceptBindOk]
              rw [leToNat_natToLe 8 n (by omega)]
              simp
              omega

theorem readVarBytes_writeVarBytes (b r : List Nat) (maxAllowed : Nat)
    (hle : b.length ≤ maxAllowed) (hlt : b.length < 2 ^ 64) :
    readVarBytes maxAllowed (writeVarBytes b ++ r) = .ok (b, r) := by
  unfold readVarBytes writeVarBytes
  rw [List.append_assoc, readVarInt_writeVarInt b.length _ hlt]
  simp only [exceptBindOk]
  rw [if_neg (by omega)]
  exact readFull_exact _ _ _ rfl

/-! ## Data model

Mirrors the Go structures used by the nursery. `WitnessType` is a
`uint16`-backed enum in lnwallet (whose source is outside this snapshot);
it is modelled as a bare `Nat` code with named constants in declaration
order, since no claim depends on the concrete numbering. The
`SignDescriptor` is opaque to every claim; it is modelled as a single
`uint64` payload carried through the external codec (see
`writeSignDescriptor`). -/

/-- Named witness-type codes (lnwallet `WitnessType` values; the numbers
stand in for the real enum and are only required to be distinct and to
fit in a `uint16`). -/
def commitmentTimeLock : Nat := 0

def htlcAcceptedSuccessSecondLevel : Nat := 1

def htlcOfferedTimeoutSecondLevel : Nat := 2

def htlcOfferedRemoteTimeout : Nat := 3

def htlcAcceptedRemoteSuccess : Nat := 4

/-- `wire.OutPoint`: a 32-byte transaction hash plus a `uint32` index. -/
structure OutPoint where
  hash : List Nat
  index : Nat
  deriving DecidableEq, Repr

/-- Well-formed outpoint: 32 hash bytes, each a byte, and a `uint32`
index. -/
def WFOutPoint (o : OutPoint) : Prop :=
  o.hash.length = 32 ∧ (∀ b ∈ o.hash, b < 256) ∧ o.index < 2 ^ 32

instance (o : OutPoint) : Decidable (WFOutPoint o) := by
  unfold WFOutPoint
  infer_instance

/-- lnwallet `BaseOutput`: the essential spendable-output attributes
`(amount, outpoint, witness type, sign descriptor)`. The amount is an
`int64` (`btcutil.Amount`); the sign descriptor is modelled as an opaque
`uint64` payload. -/
structure BaseOutput where
  amt : Int
  outpoint : OutPoint
  witnessType : Nat
  signDesc : Nat
  deriving DecidableEq, Repr

def WFBaseOutput (b : BaseOutput) : Prop :=
  -(2 ^ 63) ≤ b.amt ∧ b.amt < 2 ^ 63 ∧ WFOutPoint b.outpoint ∧
    b.witnessType < 2 ^ 16 ∧ b.signDesc < 2 ^ 64

instance (b : BaseOutput) : Decidable (WFBaseOutput b) := by
  unfold WFBaseOutput
  infer_instance

/-- `KidOutput` (utxonursery): a spendable output awaiting maturity. -/
structure KidOutput where
  base : BaseOutput
  originChanPoint : OutPoint
  isHtlc : Bool
  blocksToMaturity : Nat
  absoluteMaturity : Nat
  confHeight : Nat
  deriving DecidableEq, Repr

namespace KidOutput

def amount (k : KidOutput) : Int := k.base.amt

def outPoint (k : KidOutput) : OutPoint := k.base.outpoint

def witnessType (k : KidOutput) : Nat := k.base.witnessType

def signDesc (k : KidOutput) : Nat := k.base.signDesc

end KidOutput

def WFKidOutput (k : KidOutput) : Prop :=
  WFBaseOutput k.base ∧ WFOutPoint k.originChanPoint ∧
    k.blocksToMaturity < 2 ^ 32 ∧ k.absoluteMaturity < 2 ^ 32 ∧
    k.confHeight < 2 ^ 32

instance (k : KidOutput) : Decidable (WFKidOutput k) := by
  unfold WFKidOutput
  infer_instance

/-- `wire.TxIn`: previous outpoint, witness stack, sequence. A Go struct
literal leaves `Sequence` at its zero value 0 unless set. -/
structure TxIn where
  previousOutPoint : OutPoint
  sequence : Nat := 0
  witness : List (List Nat) := []
  deriving DecidableEq, Repr

/-- `wire.TxOut`: an `int64` value and a pkScript. -/
structure TxOut where
  pkScript : List Nat
  value : Int
  deriving DecidableEq, Repr

/-- `wire.MsgTx` restricted to the fields this subsystem touches. -/
structure MsgTx where
  version : Nat
  txIn : List TxIn
  txOut : List TxOut
  lockTime : Nat := 0
  deriving DecidableEq, Repr

def WFTxIn (i : TxIn) : Prop :=
  WFOutPoint i.previousOutPoint ∧ i.sequence < 2 ^ 32 ∧
    i.witness.length < 0xfd ∧ ∀ w ∈ i.witness, List.length w < 0xfd

instance (i : TxIn) : Decidable (WFTxIn i) := by
  unfold WFTxIn
  infer_instance

def WFTxOut (o : TxOut) : Prop :=
  -(2 ^ 63) ≤ o.value ∧ o.value < 2 ^ 63 ∧ o.pkScript.length < 0xfd

instance (o : TxOut) : Decidable (WFTxOut o) := by
  unfold WFTxOut
  infer_instance

def WFMsgTx (t : MsgTx) : Prop :=
  t.version < 2 ^ 32 ∧ t.lockTime < 2 ^ 32 ∧ t.txIn.length < 0xfd ∧
    t.txOut.length < 0xfd ∧ (∀ i ∈ t.txIn, WFTxIn i) ∧ ∀ o ∈ t.txOut, WFTxOut o

instance (t : MsgTx) : Decidable (WFMsgTx t) := by
  unfold WFMsgTx
  infer_instance

/-- `BabyOutput` (utxonursery): a two-stage HTLC output wrapping a
pre-signed timeout transaction around an embedded kid. -/
structure BabyOutput where
  expiry : Nat
  timeoutTx : MsgTx
  kid : KidOutput
  deriving DecidableEq, Repr

def WFBabyOutput (b : BabyOutput) : Prop :=
  b.expiry < 2 ^ 32 ∧ WFMsgTx b.timeoutTx ∧ WFKidOutput b.kid

instance (b : BabyOutput) : Decidable (WFBabyOutput b) := by
  unfold WFBabyOutput
  infer_instance

/-! ## External codecs (modelled)

The sign-descriptor codec lives in lnwallet and the transaction codec in
the btcd wire package; neither is part of this source snapshot. -/

/-- Modelled from the spec: `lnwallet.WriteSignDescriptor`, the external
sign-descriptor codec referenced by section 4.1 of the specification
("sign-descriptor (external codec)"). The descriptor is opaque to every
claim and is modelled as an 8-byte big-endian payload. -/
def writeSignDescriptor (sd : Nat) : List Nat := natToBe 8 sd

/-- Modelled from the spec: `lnwallet.ReadSignDescriptor`; strict
(decodes through full reads, as the spec requires decoding to be
strict). -/
def readSignDescriptor (s : List Nat) : Except CodecErr (Nat × List Nat) := do
  let (b, s) ← readFull 8 s
  .ok (beToNat b, s)

theorem readSignDescriptor_write (sd : Nat) (r : List Nat) (h : sd < 2 ^ 64) :
    readSignDescriptor (writeSignDescriptor sd ++ r) = .ok (sd, r) := by
  unfold readSignDescriptor writeSignDescriptor
  rw [readFull_exact 8 _ r (by simp)]
  simp only [exceptBindOk]
  rw [beToNat_natToBe 8 sd (by exact h)]

/-- Modelled from the spec: encoding of one transaction input within
`serializeMsgTx` (the 32 hash bytes are padded/truncated to the fixed
array width of `chainhash.Hash`). -/
def encTxIn (i : TxIn) : List Nat :=
  i.previousOutPoint.hash.take 32 ++
    List.replicate (32 - i.previousOutPoint.hash.length) 0 ++
    natToBe 4 i.previousOutPoint.index ++ natToBe 4 i.sequence ++
    writeVarInt i.witness.length ++
    (i.witness.map writeVarBytes).flatten

/-- Modelled from the spec: encoding of one transaction output within
`serializeMsgTx`. -/
def encTxOut (o : TxOut) : List Nat :=
  natToBe 8 (u64OfInt o.value) ++ writeVarBytes o.pkScript

/-- Modelled from the spec: `wire.MsgTx.Serialize`, the external bitcoin
transaction codec (used for the pre-signed baby timeout transaction).
Modelled as an injective, self-delimiting encoding of the fields the
nursery uses: version, inputs (outpoint, sequence, witness stack),
outputs (value, pkScript), lock time, with wire varints for the list
lengths. -/
def serializeMsgTx (t : MsgTx) : List Nat :=
  natToBe 4 t.version ++
    writeVarInt t.txIn.length ++ (t.txIn.map encTxIn).flatten ++
    writeVarInt t.txOut.length ++ (t.txOut.map encTxOut).flatten ++
    natToBe 4 t.lockTime

/-- Reads `n` items with the item decoder `p` (helper for the modelled
transaction codec). -/
def readItems {α : Type} (p : List Nat → Except CodecErr (α × List Nat)) :
    Nat → List Nat → Except CodecErr (List α × List Nat)
  | 0, s => .ok ([], s)
  | n + 1, s => do
      let (x, s) ← p s
      let (xs, s) ← readItems p n s
      .ok (x :: xs, s)

/-- Modelled from the spec: decoder for a single input of the modelled
transaction codec. -/
def readTxIn (s : List Nat) : Except CodecErr (TxIn × List Nat) := do
  let (hash, s) ← readFull 32 s
  let (idx, s) ← readFull 4 s
  let (seqBytes, s) ← readFull 4 s
  let (wn, s) ← readVarInt s
  let (witness, s) ← readItems (readVarBytes 0xfffffffff) wn s
  .ok (⟨⟨hash, beToNat idx⟩, beToNat seqBytes, witness⟩, s)

/-- Modelled from the spec: decoder for a single output of the modelled
transaction codec. -/
def readTxOut (s : List Nat) : Except CodecErr (TxOut × List Nat) := do
  let (value, s) ← readFull 8 s
  let (pkScript, s) ← readVarBytes 0xfffffffff s
  .ok (⟨pkScript, intOfU64 (beToNat value)⟩, s)

/-- Modelled from the spec: `wire.MsgTx.Deserialize`, strict inverse of
`serializeMsgTx`. -/
def deserializeMsgTx (s : List Nat) : Except CodecErr (MsgTx × List Nat) := do
  let (version, s) ← readFull 4 s
  let (nIn, s) ← readVarInt s
  let (txIn, s) ← readItems readTxIn nIn s
  let (nOut, s) ← readVarInt s
  let (txOut, s) ← readItems readTxOut nOut s
  let (lockTime, s) ← readFull 4 s
  .ok (⟨beToNat version, txIn, txOut, beToNat lockTime⟩, s)

theorem beVal_of_length (n : Nat) (bs : List Nat) (h : bs.length = n) :
    beVal n bs = beToNat bs := by
  subst h
  simp [beVal, List.take_of_length_le (le_refl _)]

theorem readItems_encode {α : Type} (p : List Nat → Except CodecErr (α × List Nat))
    (enc : α → List Nat) (xs : List α) (r : List Nat)
    (h : ∀ x ∈ xs, ∀ q : List Nat, p (enc x ++ q) = .ok (x, q)) :
    readItems p xs.length ((xs.map enc).flatten ++ r) = .ok (xs, r) := by
  induction xs with
  | nil => simp [readItems]
  | cons x xs ih =>
      simp only [List.map_cons, List.flatten_cons, List.length_cons,
        List.append_assoc]
      unfold readItems
      rw [h x (by simp) _]
      simp only [exceptBindOk]
      rw [ih (fun y hy q => h y (by simp [hy]) q)]
      rfl

theorem readTxIn_encode (i : TxIn) (r : List Nat) (h : WFTxIn i) :
    readTxIn (encTxIn i ++ r) = .ok (i, r) := by
  obtain ⟨⟨hlen, _, hidx⟩, hseq, hwn, hwit⟩ := h
  unfold readTxIn encTxIn
  rw [hlen, List.take_of_length_le (le_of_eq hlen)]
  simp only [Nat.sub_self, List.replicate_zero, List.append_nil,
    List.append_assoc]
  rw [readFull_exact 32 _ _ hlen]
  simp only [exceptBindOk]
  rw [readFull_exact 4 _ _ (by simp)]
  simp only [exceptBindOk]
  rw [readFull_exact 4 _ _ (by simp)]
  simp only [exceptBindOk]
  rw [readVarInt_writeVarInt _ _ (lt_trans hwn (by norm_num))]
  simp only [exceptBindOk]
  rw [readItems_encode _ writeVarBytes i.witness r (fun w hw q =>
    readVarBytes_writeVarBytes w q _ (le_of_lt (lt_of_lt_of_le (hwit w hw)
        (by norm_num)))
      (lt_trans (hwit w hw) (by norm_num)))]
  simp only [exceptBindOk]
  rw [beToNat_natToBe 4 _ (by norm_num at hidx ⊢; omega),
    beToNat_natToBe 4 _ (by norm_num at hseq ⊢; omega)]

theorem readTxOut_encode (o : TxOut) (r : List Nat) (h : WFTxOut o) :
    readTxOut (encTxOut o ++ r) = .ok (o, r) := by
  obtain ⟨hlo, hhi, hlen⟩ := h
  unfold readTxOut encTxOut
  simp only [List.append_assoc]
  rw [readFull_exact 8 _ _ (by simp)]
  simp only [exceptBindOk]
  rw [readVarBytes_writeVarBytes o.pkScript r _ (by omega) (by
    exact lt_trans hlen (by norm_num))]
  simp only [exceptBindOk]
  rw [beToNat_natToBe 8 _ (by
    have := u64OfInt_lt o.value
    norm_num at this ⊢
    omega)]
  rw [intOfU64_u64OfInt o.value hlo hhi]

theorem deserializeMsgTx_serialize (t : MsgTx) (r : List Nat) (h : WFMsgTx t) :
    deserializeMsgTx (serializeMsgTx t ++ r) = .ok (t, r) := by
  obtain ⟨hver, hlock, hnin, hnout, hins, houts⟩ := h
  unfold serializeMsgTx deserializeMsgTx
  simp only [List.append_assoc]
  rw [readFull_exact 4 _ _ (by simp)]
  simp only [exceptBindOk]
  rw [readVarInt_writeVarInt _ _ (lt_trans hnin (by norm_num))]
  simp only [exceptBindOk]
  rw [readItems_encode readTxIn encTxIn t.txIn _ (fun i hi q =>
    readTxIn_encode i q (hins i hi))]
  simp only [exceptBindOk]
  rw [readVarInt_writeVarInt _ _ (lt_trans hnout (by norm_num))]
  simp only [exceptBindOk]
  rw [readItems_encode readTxOut encTxOut t.txOut _ (fun o ho q =>
    readTxOut_encode o q (houts o ho))]
  simp only [exceptBindOk]
  rw [readFull_exact 4 _ _ (by simp)]
  simp only [exceptBindOk]
  rw [beToNat_natToBe 4 _ (by norm_num at hver ⊢; omega),
    beToNat_natToBe 4 _ (by norm_num at hlock ⊢; omega)]

/-! ## Nursery output codec (utxonursery source)

`writeOutpoint` / `readOutpoint` and the `KidOutput` / `BabyOutput`
`Encode` / `Decode` methods, translated statement by statement. -/

/-- utxonursery `writeOutpoint`: the hash through `wire.WriteVarBytes`
(varint length prefix and then the raw bytes), then the index as a
big-endian `uint32`. -/
def writeOutpoint (o : OutPoint) : List Nat :=
  writeVarBytes o.hash ++ natToBe 4 o.index

/-- utxonursery `readOutpoint`: `wire.ReadVarBytes` limited to 32 bytes,
`copy` into the zeroed 32-byte hash array (padding a short read with the
array's zero bytes), then a plain `r.Read` of the 4 index bytes. The
`io.LimitReader(r, 40)` wrapper at the call sites is not modelled: the
encoded outpoint occupies at most 37 bytes, so the 40-byte cap never
binds on the streams considered here. -/
def readOutpoint (s : List Nat) : Except CodecErr (OutPoint × List Nat) := do
  let (txid, s) ← readVarBytes 32 s
  let (idxBytes, s) ← goRead 4 s
  .ok (⟨(txid ++ List.replicate (32 - txid.length) 0).take 32, beVal 4 idxBytes⟩, s)

theorem readOutpoint_write (o : OutPoint) (r : List Nat) (h : WFOutPoint o) :
    readOutpoint (writeOutpoint o ++ r) = .ok (o, r) := by
  obtain ⟨hlen, _, hidx⟩ := h
  unfold readOutpoint writeOutpoint
  rw [List.append_assoc,
    readVarBytes_writeVarBytes o.hash _ 32 (le_of_eq hlen) (by rw [hlen]; norm_num)]
  simp only [exceptBindOk]
  rw [goRead_exact 4 _ _ (by simp) (by norm_num)]
  simp only [exceptBindOk]
  rw [hlen]
  simp only [Nat.sub_self, List.replicate_zero, List.append_nil]
  rw [List.take_of_length_le (le_of_eq hlen), beVal_of_length 4 _ (by simp),
    beToNat_natToBe 4 _ (by norm_num at hidx ⊢; omega)]

/-- `KidOutput.Encode` (utxonursery): amount as `uint64` BE, outpoint,
origin channel point, the `isHtlc` flag as one byte, three `uint32` BE
fields, the witness type as `uint16` BE, then the sign descriptor through
the external codec. (`natToBe` truncates exactly as the Go `uintXX`
conversions do.) -/
def encodeKid (k : KidOutput) : List Nat :=
  natToBe 8 (u64OfInt k.amount) ++
    writeOutpoint k.outPoint ++
    writeOutpoint k.originChanPoint ++
    [if k.isHtlc then 1 else 0] ++
    natToBe 4 k.blocksToMaturity ++
    natToBe 4 k.absoluteMaturity ++
    natToBe 4 k.confHeight ++
    natToBe 2 k.witnessType ++
    writeSignDescriptor k.signDesc

/-- `KidOutput.Decode` (utxonursery): reads the same fields back.
The scalar fields go through plain `r.Read` (`goRead`); the `isHtlc`
flag goes through `binary.Read`, which does a full read of one byte and
decodes any non-zero byte as true. The witness-type bytes are
reinterpreted as a witness type with no validation. -/
def decodeKid (s : List Nat) : Except CodecErr (KidOutput × List Nat) := do
  let (amtBytes, s) ← goRead 8 s
  let (outpoint, s) ← readOutpoint s
  let (originChanPoint, s) ← readOutpoint s
  let (htlcByte, s) ← readFull 1 s
  let (b2mBytes, s) ← goRead 4 s
  let (absBytes, s) ← goRead 4 s
  let (confBytes, s) ← goRead 4 s
  let (wtBytes, s) ← goRead 2 s
  let (sd, s) ← readSignDescriptor s
  .ok (⟨⟨intOfU64 (beVal 8 amtBytes), outpoint, beVal 2 wtBytes, sd⟩,
    originChanPoint, beVal 1 htlcByte ≠ 0, beVal 4 b2mBytes, beVal 4 absBytes,
    beVal 4 confBytes⟩, s)

/-- `BabyOutput.Encode` (utxonursery): expiry as `uint32` BE, the
serialized timeout transaction, then the embedded kid. -/
def encodeBaby (b : BabyOutput) : List Nat :=
  natToBe 4 b.expiry ++ serializeMsgTx b.timeoutTx ++ encodeKid b.kid

/-- `BabyOutput.Decode` (utxonursery). -/
def decodeBaby (s : List Nat) : Except CodecErr (BabyOutput × List Nat) := do
  let (expiryBytes, s) ← goRead 4 s
  let (timeoutTx, s) ← deserializeMsgTx s
  let (kid, s) ← decodeKid s
  .ok (⟨beVal 4 expiryBytes, timeoutTx, kid⟩, s)

theorem decodeKid_encode (k : KidOutput) (r : List Nat) (h : WFKidOutput k) :
    decodeKid (encodeKid k ++ r) = .ok (k, r) := by
  obtain ⟨⟨halo, hahi, hop, hwt, hsd⟩, hocp, hb2m, habs, hconf⟩ := h
  unfold decodeKid encodeKid
  simp only [KidOutput.amount, KidOutput.outPoint, KidOutput.witnessType,
    KidOutput.signDesc, List.append_assoc]
  rw [goRead_exact 8 _ _ (by simp) (by norm_num)]
  simp only [exceptBindOk]
  rw [readOutpoint_write k.base.outpoint _ hop]
  simp only [exceptBindOk]
  rw [readOutpoint_write _ _ hocp]
  simp only [exceptBindOk]
  rw [readFull_exact 1 [if k.isHtlc then 1 else 0] _ rfl]
  simp only [exceptBindOk]
  rw [goRead_exact 4 _ _ (by simp) (by norm_num)]
  simp only [exceptBindOk]
  rw [goRead_exact 4 _ _ (by simp) (by norm_num)]
  simp only [exceptBindOk]
  rw [goRead_exact 4 _ _ (by simp) (by norm_num)]
  simp only [exceptBindOk]
  rw [goRead_exact 2 _ _ (by simp) (by norm_num)]
  simp only [exceptBindOk]
  rw [readSignDescriptor_write k.base.signDesc _ hsd]
  simp only [exceptBindOk]
  rw [beVal_of_length 8 _ (by simp), beVal_of_length 4 _ (by simp),
    beVal_of_length 4 _ (by simp), beVal_of_length 4 _ (by simp),
    beVal_of_length 2 _ (by simp), beVal_of_length 1 _ (by simp)]
  rw [beToNat_natToBe 8 _ (by
      have := u64OfInt_lt k.base.amt
      norm_num at this ⊢
      omega),
    intOfU64_u64OfInt k.base.amt halo hahi,
    beToNat_natToBe 4 _ (by norm_num at hb2m ⊢; omega),
    beToNat_natToBe 4 _ (by norm_num at habs ⊢; omega),
    beToNat_natToBe 4 _ (by norm_num at hconf ⊢; omega),
    beToNat_natToBe 2 _ (by norm_num at hwt ⊢; omega)]
  cases k with
  | mk base ocp ih b2m am ch =>
      cases base with
      | mk amt op wt sd => cases ih <;> simp [beToNat]

theorem decodeBaby_encode (b : BabyOutput) (r : List Nat) (h : WFBabyOutput b) :
    decodeBaby (encodeBaby b ++ r) = .ok (b, r) := by
  obtain ⟨hexp, htx, hkid⟩ := h
  unfold decodeBaby encodeBaby
  simp only [List.append_assoc]
  rw [goRead_exact 4 _ _ (by simp) (by norm_num)]
  simp only [exceptBindOk]
  rw [deserializeMsgTx_serialize _ _ htx]
  simp only [exceptBindOk]
  rw [decodeKid_encode _ _ hkid]
  simp only [exceptBindOk]
  rw [beVal_of_length 4 _ (by simp),
    beToNat_natToBe 4 _ (by norm_num at hexp ⊢; omega)]

/-! ## Strictness of the kid decoder on truncated streams -/

theorem isFail_bind {ε α β : Type} (x : Except ε α) (f : α → Except ε β)
    (h : isFail x = true) : isFail (x >>= f) = true := by
  cases x with
  | error e => rfl
  | ok a => simp [isFail] at h

theorem take_append_ge (l₁ l₂ : List Nat) (n : Nat) (h : l₁.length ≤ n) :
    (l₁ ++ l₂).take n = l₁ ++ l₂.take (n - l₁.length) := by
  rw [List.take_append_eq_append_take, List.take_of_length_le h]

theorem take_append_lt (l₁ l₂ : List Nat) (n : Nat) (h : n ≤ l₁.length) :
    (l₁ ++ l₂).take n = l₁.take n := by
  rw [List.take_append_eq_append_take, Nat.sub_eq_zero_of_le h,
    List.take_zero, List.append_nil]

@[simp] theorem readOutpoint_nil : readOutpoint [] = .error .eof := rfl

@[simp] theorem readSignDescriptor_nil : readSignDescriptor [] = .error .eof := rfl

theorem readVarInt_cons_small (b : Nat) (s : List Nat) (h : b < 0xfd) :
    readVarInt (b :: s) = .ok (b, s) := by
  unfold readVarInt
  rw [readFull_one_cons]
  simp only [exceptBindOk, beVal_singleton]
  split <;> first | rfl | omega

theorem writeOutpoint_length (o : OutPoint) (h : o.hash.length = 32) :
    (writeOutpoint o).length = 37 := by
  simp [writeOutpoint, writeVarBytes, writeVarInt, h]

/-- Behaviour of `readOutpoint` on a proper prefix of a well-formed
encoded outpoint: the read either fails outright or succeeds while
draining the whole stream (a short read of the trailing index bytes). -/
theorem readOutpoint_trunc (o : OutPoint) (ho : WFOutPoint o) (m : Nat)
    (hm : m < 37) :
    isFail (readOutpoint ((writeOutpoint o).take m)) = true ∨
      (0 < m ∧ ∃ v, readOutpoint ((writeOutpoint o).take m) = .ok (v, [])) := by
  obtain ⟨hlen, _, _⟩ := ho
  have henc : writeOutpoint o = 32 :: (o.hash ++ natToBe 4 o.index) := by
    unfold writeOutpoint writeVarBytes
    rw [hlen]
    norm_num [writeVarInt]
  rcases Nat.eq_zero_or_pos m with hz | hpos
  · subst hz
    simp
  · obtain ⟨m', rfl⟩ : ∃ n, m = n + 1 := ⟨m - 1, by omega⟩
    rw [henc, List.take_succ_cons]
    unfold readOutpoint readVarBytes
    rw [readVarInt_cons_small 32 _ (by norm_num)]
    simp only [exceptBindOk]
    rw [if_neg (by norm_num)]
    rcases Nat.lt_or_ge m' 32 with hlt | hge32
    · left
      rw [take_append_lt _ _ m' (by rw [hlen]; omega)]
      apply isFail_bind
      exact readFull_short 32 _ (by simp [hlen]; omega)
    · rcases Nat.eq_or_lt_of_le hge32 with heq | hgt
      · left
        rw [take_append_lt _ _ m' (by rw [hlen]; omega), ← heq,
          List.take_of_length_le (le_of_eq hlen)]
        conv_lhs => rw [show o.hash = o.hash ++ [] from (List.append_nil _).symm]
        rw [readFull_exact 32 _ _ hlen]
        simp
      · right
        refine ⟨by omega, ?_⟩
        rw [take_append_ge _ _ m' (by rw [hlen]; omega), hlen]
        rw [readFull_exact 32 _ _ hlen]
        simp only [exceptBindOk]
        have hne : (natToBe 4 o.index).take (m' - 32) ≠ [] := by
          have hl : ((natToBe 4 o.index).take (m' - 32)).length = m' - 32 := by
            simp
            omega
          intro hcon
          rw [hcon] at hl
          simp at hl
          omega
        rw [goRead_short 4 _ hne (by simp)]
        simp only [exceptBindOk]
        exact ⟨_, rfl⟩

theorem take_natToBe_ne_nil (c x m : Nat) (hm : 0 < m) (hc : 0 < c) :
    (natToBe c x).take m ≠ [] := by
  have hl : ((natToBe c x).take m).length = min m c := by simp
  intro hcon
  rw [hcon] at hl
  simp at hl
  omega

theorem encodeKid_length (k : KidOutput) (h : WFKidOutput k) :
    (encodeKid k).length = 105 := by
  obtain ⟨⟨_, _, hop, _, _⟩, hocp, _, _, _⟩ := h
  simp [encodeKid, KidOutput.outPoint, writeOutpoint_length _ hop.1,
    writeOutpoint_length _ hocp.1, writeSignDescriptor]

/-- Any proper prefix of an encoded `KidOutput` fails to decode: the
closing sign-descriptor read is strict, so a cut anywhere in the record
either fails the read at the cut or drains the stream and fails the next
read. -/
theorem decodeKid_truncFails (k : KidOutput) (hWF : WFKidOutput k) (n : Nat)
    (hn : n < (encodeKid k).length) :
    isFail (decodeKid ((encodeKid k).take n)) = true := by
  obtain ⟨⟨halo, hahi, hop, hwt, hsd⟩, hocp, hb2m, habs, hconf⟩ := hWF
  have hl2 := writeOutpoint_length _ hop.1
  have hl3 := writeOutpoint_length _ hocp.1
  rw [encodeKid_length k ⟨⟨halo, hahi, hop, hwt, hsd⟩, hocp, hb2m, habs, hconf⟩] at hn
  unfold decodeKid encodeKid
  simp only [KidOutput.amount, KidOutput.outPoint, KidOutput.witnessType,
    KidOutput.signDesc, List.append_assoc]
  rcases Nat.lt_or_ge n 8 with h8 | h8
  · -- cut inside the amount field
    rw [take_append_lt _ _ n (by simp; omega)]
    rcases Nat.eq_zero_or_pos n with hz | hpos
    · subst hz
      simp
    · rw [goRead_short 8 _ (take_natToBe_ne_nil 8 _ n hpos (by norm_num))
        (by simp)]
      simp
  rw [take_append_ge _ _ n (by simp; omega)]
  rw [goRead_exact 8 _ _ (by simp) (by norm_num)]
  simp only [exceptBindOk, natToBe_length]
  rcases Nat.lt_or_ge n 45 with h45 | h45
  · -- cut inside the first outpoint
    rw [take_append_lt _ _ (n - 8) (by rw [hl2]; omega)]
    rcases readOutpoint_trunc k.base.outpoint hop (n - 8) (by omega) with hf | hdr
    · exact isFail_bind _ _ hf
    · obtain ⟨_, v, hv⟩ := hdr
      rw [hv]
      simp
  rw [take_append_ge _ _ (n - 8) (by rw [hl2]; omega), hl2]
  rw [readOutpoint_write k.base.outpoint _ hop]
  simp only [exceptBindOk]
  rcases Nat.lt_or_ge n 82 with h82 | h82
  · -- cut inside the origin channel point
    rw [take_append_lt _ _ (n - 8 - 37) (by rw [hl3]; omega)]
    rcases readOutpoint_trunc k.originChanPoint hocp (n - 8 - 37) (by omega) with
      hf | hdr
    · exact isFail_bind _ _ hf
    · obtain ⟨_, v, hv⟩ := hdr
      rw [hv]
      simp
  rw [take_append_ge _ _ (n - 8 - 37) (by rw [hl3]; omega), hl3]
  rw [readOutpoint_write k.originChanPoint _ hocp]
  simp only [exceptBindOk]
  rcases Nat.lt_or_ge n 83 with h83 | h83
  · -- cut right before the isHtlc byte
    have hz : n - 8 - 37 - 37 = 0 := by omega
    rw [hz]
    simp
  obtain ⟨m4, hm4⟩ : ∃ t, n - 8 - 37 - 37 = t + 1 := ⟨n - 83, by omega⟩
  rw [hm4, List.singleton_append, List.take_succ_cons, readFull_one_cons]
  simp only [exceptBindOk]
  rcases Nat.lt_or_ge n 87 with h87 | h87
  · -- cut inside blocksToMaturity
    rw [take_append_lt _ _ m4 (by simp; omega)]
    rcases Nat.eq_zero_or_pos m4 with hz | hpos
    · subst hz
      simp
    · rw [goRead_short 4 _ (take_natToBe_ne_nil 4 _ m4 hpos (by norm_num))
        (by simp)]
      simp
  rw [take_append_ge _ _ m4 (by simp; omega)]
  rw [goRead_exact 4 _ _ (by simp) (by norm_num)]
  simp only [exceptBindOk, natToBe_length]
  rcases Nat.lt_or_ge n 91 with h91 | h91
  · -- cut inside absoluteMaturity
    rw [take_append_lt _ _ (m4 - 4) (by simp; omega)]
    rcases Nat.eq_zero_or_pos (m4 - 4) with hz | hpos
    · rw [hz]
      simp
    · rw [goRead_short 4 _ (take_natToBe_ne_nil 4 _ _ hpos (by norm_num))
        (by simp)]
      simp
  rw [take_append_ge _ _ (m4 - 4) (by simp; omega)]
  rw [goRead_exact 4 _ _ (by simp) (by norm_num)]
  simp only [exceptBindOk, natToBe_length]
  rcases Nat.lt_or_ge n 95 with h95 | h95
  · -- cut inside confHeight
    rw [take_append_lt _ _ (m4 - 4 - 4) (by simp; omega)]
    rcases Nat.eq_zero_or_pos (m4 - 4 - 4) with hz | hpos
    · rw [hz]
      simp
    · rw [goRead_short 4 _ (take_natToBe_ne_nil 4 _ _ hpos (by norm_num))
        (by simp)]
      simp
  rw [take_append_ge _ _ (m4 - 4 - 4) (by simp; omega)]
  rw [goRead_exact 4 _ _ (by simp) (by norm_num)]
  simp only [exceptBindOk, natToBe_length]
  rcases Nat.lt_or_ge n 97 with h97 | h97
  · -- cut inside the witness-type bytes
    rw [take_append_lt _ _ (m4 - 4 - 4 - 4) (by simp; omega)]
    rcases Nat.eq_zero_or_pos (m4 - 4 - 4 - 4) with hz | hpos
    · rw [hz]
      simp
    · rw [goRead_short 2 _ (take_natToBe_ne_nil 2 _ _ hpos (by norm_num))
        (by simp)]
      simp
  rw [take_append_ge _ _ (m4 - 4 - 4 - 4) (by simp; omega)]
  rw [goRead_exact 2 _ _ (by simp) (by norm_num)]
  simp only [exceptBindOk, natToBe_length]
  -- cut inside the sign descriptor: its read is strict
  apply isFail_bind
  unfold readSignDescriptor writeSignDescriptor
  apply isFail_bind
  exact readFull_short 8 _ (by simp; omega)

/-! ## Fees and weight estimation -/

/-- btcd `SatPerKWeight.FeeForWeight`: `rate * weight / 1000` in integer
arithmetic. -/
def feeForWeight (rate weight : Nat) : Nat := rate * weight / 1000

/-- Modelled from the spec: per-witness-kind weight contribution of
`lnwallet.TxWeightEstimator.AddWitnessInputByType` ("adds per-input
weight by witness-kind"); lnwallet is outside this snapshot, so the
concrete numbers stand in for its constants (no claim depends on them;
an unrecognised kind contributes nothing). -/
def witnessInputWeight (wt : Nat) : Nat :=
  if wt = commitmentTimeLock then 724
  else if wt = htlcOfferedTimeoutSecondLevel then 666
  else if wt = htlcAcceptedSuccessSecondLevel then 706
  else if wt = htlcOfferedRemoteTimeout then 650
  else if wt = htlcAcceptedRemoteSuccess then 680
  else 0

/-- Modelled from the spec: `lnwallet.TxWeightEstimator` ("a weight
estimate that starts with one P2WKH output and adds per-input weight by
witness-kind"). -/
structure TxWeightEstimator where
  outputWeight : Nat := 0
  inputWeight : Nat := 0
  deriving DecidableEq, Repr

namespace TxWeightEstimator

/-- Modelled from the spec: weight contribution of one P2WKH output. -/
def addP2WKHOutput (e : TxWeightEstimator) : TxWeightEstimator :=
  { e with outputWeight := e.outputWeight + 124 }

def addWitnessInputByType (e : TxWeightEstimator) (wt : Nat) : TxWeightEstimator :=
  { e with inputWeight := e.inputWeight + witnessInputWeight wt }

/-- Total estimated weight (a fixed base cost plus the accumulated
contributions). -/
def weight (e : TxWeightEstimator) : Nat := 42 + e.outputWeight + e.inputWeight

/-- Estimated virtual size: weight divided by four, rounded up. -/
def vsize (e : TxWeightEstimator) : Nat := (e.weight + 3) / 4

end TxWeightEstimator

/-! ## Transaction sanity check (btcd blockchain package)

Embeds the checks of `blockchain.CheckTransactionSanity` that can fire
for the transactions built here: input/output emptiness, output value
range and total, duplicate inputs, and null previous outpoints. The
serialized-size and coinbase-script-length checks are elided: the sweep
transactions built by this subsystem are far below the block size limit,
and the elided checks cannot fire on them. -/

inductive SanityErr where
  | noInputs
  | noOutputs
  | negativeOutput
  | outputTooLarge
  | totalTooLarge
  | duplicateInputs
  | nullPrevOut
  deriving DecidableEq, Repr

/-- 21e6 BTC in satoshi (`btcutil.MaxSatoshi`). -/
def maxSatoshi : Int := 21000000 * 100000000

/-- A null (all-zero hash, max index) previous outpoint, as recognised
by btcd. -/
def isNullOutPoint (o : OutPoint) : Bool :=
  o.hash.all (· == 0) && o.index == 4294967295

/-- Whether a transaction has the coinbase shape (single null-prevout
input). -/
def isCoinBaseTx (tx : MsgTx) : Bool :=
  match tx.txIn with
  | [i] => isNullOutPoint i.previousOutPoint
  | _ => false

/-- Whether the list contains two equal elements. -/
def hasDup : List OutPoint → Bool
  | [] => false
  | x :: xs => xs.contains x || hasDup xs

def checkTransactionSanity (tx : MsgTx) : Except SanityErr Unit :=
  if tx.txIn.isEmpty then .error .noInputs
  else if tx.txOut.isEmpty then .error .noOutputs
  else if tx.txOut.any (fun o => o.value < 0) then .error .negativeOutput
  else if tx.txOut.any (fun o => o.value > maxSatoshi) then .error .outputTooLarge
  else if tx.txOut.foldl (fun acc o => acc + o.value) 0 > maxSatoshi then
    .error .totalTooLarge
  else if hasDup (tx.txIn.map (·.previousOutPoint)) then .error .duplicateInputs
  else if isCoinBaseTx tx then .ok ()
  else if tx.txIn.any (fun i => isNullOutPoint i.previousOutPoint) then
    .error .nullPrevOut
  else .ok ()

/-! ## The nursery sweep-transaction builder (utxonursery source) -/

/-- Result of `PublishTransaction`: either `lnwallet.ErrDoubleSpend` or
some other broadcast error (kept abstract by a code). -/
inductive PubErr where
  | doubleSpend
  | other (code : Nat)
  deriving DecidableEq, Repr

inductive NurseryErr where
  | feeEstimate
  | scriptGen
  | sanity (e : SanityErr)
  | witnessGen
  | publish (e : PubErr)
  | registerConf
  | finalizeConflict
  | storeErr
  deriving DecidableEq, Repr

/-- Observable actions of the incubator: calls into the stray pool, the
store, the broadcaster and the notifier, recorded as an event trace by
the embedding. -/
inductive Event where
  | divertedToStrayPool (k : KidOutput)
  | createdSweep (h : Nat)
  | finalizedKinder (h : Nat) (tx : Option MsgTx)
  | publishedSweep (tx : MsgTx)
  | registeredSweepConf (tx : MsgTx) (h : Nat)
  | publishedTimeout (tx : MsgTx)
  | registeredTimeoutConf (h : Nat)
  | graduatedHeight (h : Nat)
  | regraduateCall (h : Nat)
  | graduateCall (h : Nat)
  deriving DecidableEq, Repr

/-- The nursery `Config`: the external collaborators used by the
incubator, as pure functions / fixed results (each Go call site reads
one of these). `cutStrayInput` is the configured `CutStrayInput`
predicate; per the spec its true branch also appends the output to the
stray pool and removes it from the nursery, which the embedding records
as `Event.divertedToStrayPool`. -/
structure NurseryConfig where
  estimateFeePerKW : Except NurseryErr Nat
  genSweepScript : Except NurseryErr (List Nat)
  cutStrayInput : Nat → KidOutput → Bool
  buildWitness : KidOutput → MsgTx → Nat → Except NurseryErr (List (List Nat))
  publishResult : MsgTx → Option PubErr
  registerConfOk : Bool
  bestHeight : Nat

/-- Sets the witness of input `idx` (`sweepTx.TxIn[idx].Witness = w`). -/
def setWitness (tx : MsgTx) (idx : Nat) (w : List (List Nat)) : MsgTx :=
  { tx with txIn := tx.txIn.mapIdx fun i t => if i = idx then { t with witness := w } else t }

/-- The `addWitness` loop of `populateSweepTx`: builds each input's
witness against the transaction as mutated so far and stores it at the
input's index. -/
def attachWitnesses (cfg : NurseryConfig) :
    MsgTx → List KidOutput → Nat → Except NurseryErr MsgTx
  | tx, [], _ => .ok tx
  | tx, o :: rest, idx => do
      let w ← cfg.buildWitness o tx idx
      attachWitnesses cfg (setWitness tx idx w) rest (idx + 1)

/-- The transaction assembled by `populateSweepTx` before the sanity
check and witness generation: version 2, the single output paying
`totalSum - txFee` to the sweep script, `LockTime` set when cltv inputs
are present, csv inputs first (sequence = blocks-to-maturity) then cltv
inputs (struct-literal default sequence 0). -/
def assembleSweepTx (pkScript : List Nat) (txFee : Nat) (classHeight : Nat)
    (csvInputs cltvInputs : List KidOutput) : MsgTx :=
  let totalSum : Int :=
    (csvInputs.map KidOutput.amount).foldl (· + ·) 0 +
      (cltvInputs.map KidOutput.amount).foldl (· + ·) 0
  { version := 2
    txIn :=
      csvInputs.map (fun input =>
        { previousOutPoint := input.outPoint
          sequence := input.blocksToMaturity }) ++
      cltvInputs.map (fun input => { previousOutPoint := input.outPoint })
    txOut := [{ pkScript := pkScript, value := totalSum - txFee }]
    lockTime := if cltvInputs.length > 0 then classHeight else 0 }

/-- `populateSweepTx` (utxonursery source): generate the sweep script,
assemble the transaction, run the sanity check, then attach the
witnesses (csv at indices `[0, |csv|)`, cltv at offset `|csv|`). -/
def populateSweepTx (cfg : NurseryConfig) (txFee : Nat) (classHeight : Nat)
    (csvInputs cltvInputs : List KidOutput) : Except NurseryErr MsgTx := do
  let pkScript ← cfg.genSweepScript
  let sweepTx := assembleSweepTx pkScript txFee classHeight csvInputs cltvInputs
  match checkTransactionSanity sweepTx with
  | .error e => .error (.sanity e)
  | .ok _ => attachWitnesses cfg sweepTx (csvInputs ++ cltvInputs) 0

/-- `createSweepTx` (utxonursery source). The range loop appends
`&input` — a pointer to the single loop variable — to
`csvOutputs`/`cltvOutputs`; when `populateSweepTx` later dereferences
those interface values, the variable holds the final element of
`kgtnOutputs`, so the embedding passes `replicate count lastElement` for
each partition. The weight estimate and the partition counts use the
per-iteration values, as the loop body does. Returns the transaction
plus the trace: an `Event.createdSweep` marker recording that a fresh
sweep was signed for this height, and one `Event.divertedToStrayPool`
per output diverted by `cutStrayInput`. -/
def createSweepTx (cfg : NurseryConfig) (kgtnOutputs : List KidOutput)
    (classHeight : Nat) : Except NurseryErr (MsgTx × List Event) := do
  let feePerKw ← cfg.estimateFeePerKW
  let kept := kgtnOutputs.filter fun input => ! cfg.cutStrayInput feePerKw input
  let diverted := kgtnOutputs.filter fun input => cfg.cutStrayInput feePerKw input
  let weightEstimate :=
    kept.foldl (fun e input => e.addWitnessInputByType input.witnessType)
      (TxWeightEstimator.addP2WKHOutput {})
  let csvCount := kept.countP fun input =>
    input.witnessType == commitmentTimeLock ||
      input.witnessType == htlcOfferedTimeoutSecondLevel ||
      input.witnessType == htlcAcceptedSuccessSecondLevel
  let cltvCount := kept.countP fun input =>
    input.witnessType == htlcOfferedRemoteTimeout
  let csvInputs :=
    match kgtnOutputs.getLast? with
    | some last => List.replicate csvCount last
    | none => []
  let cltvInputs :=
    match kgtnOutputs.getLast? with
    | some last => List.replicate cltvCount last
    | none => []
  let txFee := feeForWeight feePerKw weightEstimate.vsize
  let tx ← populateSweepTx cfg txFee classHeight csvInputs cltvInputs
  .ok (tx, Event.createdSweep classHeight :: diverted.map Event.divertedToStrayPool)

/-! ## Nursery store (modelled) and the incubator routines (source) -/

/-- Modelled from the spec: the nursery `Store` state, whose
implementation is this repository's nursery-store code outside the
snapshot (only the interface appears in the source). `heightIndex` is
the set of still-active heights; `finalizedTxns` the per-height
finalized-sweep record; the kid/crib maps are the height-indexed
`KNDR`/`CRIB` contents returned by `FetchClass`. -/
structure NurseryStore where
  finalizedTxns : Nat → Option MsgTx
  lastFinalizedHeight : Nat
  lastGraduatedHeight : Nat
  kndrAtHeight : Nat → List KidOutput
  cribAtHeight : Nat → List BabyOutput
  heightIndex : List Nat

/-- Modelled from the spec: `FetchClass(height) → (finalTx?, kids,
cribs)`. -/
def fetchClass (s : NurseryStore) (h : Nat) :
    Option MsgTx × List KidOutput × List BabyOutput :=
  (s.finalizedTxns h, s.kndrAtHeight h, s.cribAtHeight h)

/-- Modelled from the spec: `FinalizeKinder(height, tx?)` — persists the
finalized sweep for a height (`tx` may be nil), sets
`LastFinalizedHeight := max(LastFinalizedHeight, height)`, and rejects
an overwrite when `height ≤ LastFinalizedHeight` and a non-nil tx is
already stored. -/
def finalizeKinder (s : NurseryStore) (h : Nat) (tx : Option MsgTx) :
    Except NurseryErr NurseryStore :=
  if h ≤ s.lastFinalizedHeight ∧ (s.finalizedTxns h).isSome then
    .error .finalizeConflict
  else
    .ok { s with
      finalizedTxns := fun x => if x = h then tx else s.finalizedTxns x
      lastFinalizedHeight := max s.lastFinalizedHeight h }

/-- Modelled from the spec: `GraduateHeight(height)` — records the last
graduated height and prunes the height-index row. -/
def graduateHeight (s : NurseryStore) (h : Nat) : NurseryStore :=
  { s with
    lastGraduatedHeight := h
    kndrAtHeight := fun x => if x = h then [] else s.kndrAtHeight x
    cribAtHeight := fun x => if x = h then [] else s.cribAtHeight x
    heightIndex := s.heightIndex.filter (· ≠ h) }

/-- Modelled from the spec: `HeightsBelowOrEqual(h)` — the still-active
heights at most `h`, in stored order. -/
def heightsBelowOrEqual (s : NurseryStore) (h : Nat) : List Nat :=
  s.heightIndex.filter (· ≤ h)

/-- `registerSweepConf` (source): registers the finalized sweep for
confirmation notifications; failure aborts. The spawned
`waitForSweepConf` goroutine is asynchronous and outside this
embedding. -/
def registerSweepConf (cfg : NurseryConfig) (finalTx : MsgTx)
    (classHeight : Nat) : Except NurseryErr (List Event) :=
  if cfg.registerConfOk then .ok [.registeredSweepConf finalTx classHeight]
  else .error .registerConf

/-- `sweepMatureOutputs` (source): broadcast the finalized sweep; an
`ErrDoubleSpend` result is ignored, any other broadcast error is
returned; then register for confirmation. -/
def sweepMatureOutputs (cfg : NurseryConfig) (classHeight : Nat)
    (finalTx : MsgTx) : Except NurseryErr (List Event) :=
  match cfg.publishResult finalTx with
  | some (.other c) => .error (.publish (.other c))
  | _ => do
      let evs ← registerSweepConf cfg finalTx classHeight
      .ok (.publishedSweep finalTx :: evs)

/-- `registerTimeoutConf` (source): registers the baby timeout
transaction for confirmation; the spawned `waitForTimeoutConf` goroutine
is outside this embedding. -/
def registerTimeoutConf (cfg : NurseryConfig) (heightHint : Nat) :
    Except NurseryErr (List Event) :=
  if cfg.registerConfOk then .ok [.registeredTimeoutConf heightHint]
  else .error .registerConf

/-- `sweepCribOutput` (source): broadcast the baby's pre-signed timeout
transaction; `ErrDoubleSpend` is ignored, any other broadcast error is
returned; then register for confirmation. -/
def sweepCribOutput (cfg : NurseryConfig) (classHeight : Nat)
    (baby : BabyOutput) : Except NurseryErr (List Event) :=
  match cfg.publishResult baby.timeoutTx with
  | some (.other c) => .error (.publish (.other c))
  | _ => do
      let evs ← registerTimeoutConf cfg classHeight
      .ok (.publishedTimeout baby.timeoutTx :: evs)

/-- The crib loop shared by `graduateClass` and `regraduateClass`. -/
def sweepCribs (cfg : NurseryConfig) (classHeight : Nat) :
    List BabyOutput → Except NurseryErr (List Event)
  | [] => .ok []
  | b :: rest => do
      let evs ← sweepCribOutput cfg classHeight b
      let evsRest ← sweepCribs cfg classHeight rest
      .ok (evs ++ evsRest)

/-- `graduateClass` (source): fetch the class, build and persist a
finalized sweep only when the height is above `LastFinalizedHeight`,
broadcast the finalized sweep when one exists, broadcast the crib
timeout transactions, then `GraduateHeight`. The leading
`Event.graduateCall` marker records the invocation. -/
def graduateClass (cfg : NurseryConfig) (s : NurseryStore) (classHeight : Nat) :
    Except NurseryErr (NurseryStore × List Event) := do
  let (finalTx0, kgtnOutputs, cribOutputs) := fetchClass s classHeight
  let lastFinalizedHeight := s.lastFinalizedHeight
  let (finalTx, s1, evs1) ←
    if classHeight > lastFinalizedHeight then do
      let (finalTx, evsSweep) ←
        if kgtnOutputs.length > 0 then do
          let (tx, evs) ← createSweepTx cfg kgtnOutputs classHeight
          .ok (some tx, evs)
        else
          (.ok (finalTx0, []) : Except NurseryErr (Option MsgTx × List Event))
      let s1 ← finalizeKinder s classHeight finalTx
      .ok (finalTx, s1, evsSweep ++ [Event.finalizedKinder classHeight finalTx])
    else
      (.ok (finalTx0, s, []) :
        Except NurseryErr (Option MsgTx × NurseryStore × List Event))
  let evs2 ←
    match finalTx with
    | some tx => sweepMatureOutputs cfg classHeight tx
    | none => (.ok [] : Except NurseryErr (List Event))
  let evs3 ← sweepCribs cfg classHeight cribOutputs
  .ok (graduateHeight s1 classHeight,
    Event.graduateCall classHeight ::
      (evs1 ++ evs2 ++ evs3 ++ [Event.graduatedHeight classHeight]))

/-- `regraduateClass` (source): re-broadcast / re-register the stored
finalized sweep and the crib timeout transactions for one height; no
signing and no store mutation. -/
def regraduateClass (cfg : NurseryConfig) (s : NurseryStore)
    (classHeight : Nat) : Except NurseryErr (List Event) := do
  let (finalTx, _, cribOutputs) := fetchClass s classHeight
  let evs1 ←
    match finalTx with
    | some tx => sweepMatureOutputs cfg classHeight tx
    | none => (.ok [] : Except NurseryErr (List Event))
  let evs2 ← sweepCribs cfg classHeight cribOutputs
  .ok (Event.regraduateCall classHeight :: (evs1 ++ evs2))

/-- The re-registration loop of `reloadClasses` over the still-active
heights. -/
def regraduateAll (cfg : NurseryConfig) (s : NurseryStore) :
    List Nat → Except NurseryErr (List Event)
  | [] => .ok []
  | h :: rest => do
      let evs ← regraduateClass cfg s h
      let evsRest ← regraduateAll cfg s rest
      .ok (evs ++ evsRest)

/-- The body of the catch-up loop of `reloadClasses`, recursing on the
number of remaining iterations. -/
def graduateClassesGo (cfg : NurseryConfig) :
    NurseryStore → Nat → Nat → Except NurseryErr (NurseryStore × List Event)
  | s, _, 0 => .ok (s, [])
  | s, cur, n + 1 => do
      let (s1, evs) ← graduateClass cfg s cur
      let (s2, evsRest) ← graduateClassesGo cfg s1 (cur + 1) n
      .ok (s2, evs ++ evsRest)

/-- The catch-up loop of `reloadClasses`:
`for curHeight := lastGradHeight + 1; curHeight <= bestHeight; curHeight++`
(`stop + 1 - cur` iterations). -/
def graduateClassesFromTo (cfg : NurseryConfig) (s : NurseryStore)
    (cur stop : Nat) : Except NurseryErr (NurseryStore × List Event) :=
  graduateClassesGo cfg s cur (stop + 1 - cur)

/-- `reloadClasses` (source): regraduate every still-active height at
most `lastGradHeight`; then, unless no height was ever graduated
(`lastGradHeight == 0`) or the chain tip equals `lastGradHeight`, replay
`graduateClass` for every height from `lastGradHeight + 1` up to the
chain tip in ascending order. -/
def reloadClasses (cfg : NurseryConfig) (s : NurseryStore)
    (lastGradHeight : Nat) : Except NurseryErr (NurseryStore × List Event) := do
  let activeHeights := heightsBelowOrEqual s lastGradHeight
  let evsA ← regraduateAll cfg s activeHeights
  let bestHeight := cfg.bestHeight
  if lastGradHeight = 0 ∨ bestHeight = lastGradHeight then
    .ok (s, evsA)
  else do
    let (s1, evsB) ← graduateClassesFromTo cfg s (lastGradHeight + 1) bestHeight
    .ok (s1, evsA ++ evsB)

/-! ## Stray output pool (strayoutputpool/pool.go source) -/

inductive PoolErr where
  | feeEstimate
  | scriptGen
  | witnessGen
  | sanity (e : SanityErr)
  | publish (e : PubErr)
  | storeFetch
  deriving DecidableEq, Repr

/-- The pool's external collaborators (`PoolConfig` in the source). The
stored stray entities (`store.OutputEntity`, whose implementation is
this repository's store package outside the snapshot) each wrap one
spendable output, modelled as a `BaseOutput`. -/
structure PoolConfig where
  estimateFeePerKW : Except PoolErr Nat
  genSweepScript : Except PoolErr (List Nat)
  buildWitness : BaseOutput → MsgTx → Nat → Except PoolErr (List (List Nat))
  publishResult : MsgTx → Option PubErr

/-- The input loop of `PoolServer.genSweepTx`: for each stored output,
accumulate its witness weight and amount, append the input (struct
literal, so default sequence), and attach its witness built against the
transaction as assembled so far. -/
def poolAddInputs (cfg : PoolConfig) :
    List BaseOutput → MsgTx → Nat → TxWeightEstimator → Int →
      Except PoolErr (MsgTx × TxWeightEstimator × Int)
  | [], txn, _, est, total => .ok (txn, est, total)
  | o :: rest, txn, idx, est, total => do
      let est := est.addWitnessInputByType o.witnessType
      let total := total + o.amt
      let txn := { txn with txIn := txn.txIn ++ [{ previousOutPoint := o.outpoint }] }
      let w ← cfg.buildWitness o txn idx
      poolAddInputs cfg rest (setWitness txn idx w) (idx + 1) est total

/-- `PoolServer.genSweepTx` (source): estimate the fee rate at the
6-block target, start the weight estimate with one P2WKH output, run the
input loop over all stored stray outputs, compute the fee from the
accumulated weight, append the single output paying `totalAmt - txFee`
to the provided sweep script, and run the transaction sanity check
(returning its error on failure). -/
def poolGenSweepTxWith (cfg : PoolConfig) (pkScript : List Nat)
    (strayOutputs : List BaseOutput) : Except PoolErr MsgTx := do
  let feePerKW ← cfg.estimateFeePerKW
  let txn : MsgTx := { version := 2, txIn := [], txOut := [] }
  let txEstimator := TxWeightEstimator.addP2WKHOutput {}
  let (txn, txEstimator, totalAmt) ←
    poolAddInputs cfg strayOutputs txn 0 txEstimator 0
  let txFee := feeForWeight feePerKW txEstimator.weight
  let txn := { txn with
    txOut := txn.txOut ++ [{ pkScript := pkScript, value := totalAmt - txFee }] }
  match checkTransactionSanity txn with
  | .error e => .error (.sanity e)
  | .ok _ => .ok txn

/-- `PoolServer.GenSweepTx` (source): obtain the sweep script, fetch all
stored stray outputs (`strayOutputs` stands for the store contents), and
build the sweep transaction. -/
def poolGenSweepTx (cfg : PoolConfig) (strayOutputs : List BaseOutput) :
    Except PoolErr MsgTx := do
  let pkScript ← cfg.genSweepScript
  poolGenSweepTxWith cfg pkScript strayOutputs

/-- `PoolServer.Sweep` (source): build the sweep transaction for all
stored outputs and broadcast it, propagating any error; on success the
broadcast transaction is returned as the observable result. -/
def poolSweep (cfg : PoolConfig) (strayOutputs : List BaseOutput) :
    Except PoolErr MsgTx := do
  let btx ← poolGenSweepTx cfg strayOutputs
  match cfg.publishResult btx with
  | some e => .error (.publish e)
  | none => .ok btx

/-! ## Contract-court spendable output (contractcourt source) -/

/-- Modelled from the spec: `lnwallet.BaseOutput.Encode`, this
repository's lnwallet codec outside the snapshot — the essential
attributes `(amount, outpoint, witness-kind, sign-descriptor)` in the
layout of section 4.1 (amount `u64` BE, outpoint as 32 raw hash bytes
and a `u32` BE index, witness type `u16` BE, then the sign-descriptor
codec). -/
def encodeBaseOutput (b : BaseOutput) : List Nat :=
  natToBe 8 (u64OfInt b.amt) ++
    (b.outpoint.hash.take 32 ++ List.replicate (32 - b.outpoint.hash.length) 0) ++
    natToBe 4 b.outpoint.index ++
    natToBe 2 b.witnessType ++
    writeSignDescriptor b.signDesc

/-- Modelled from the spec: `lnwallet.BaseOutput.Decode`, strict inverse
of `encodeBaseOutput` (spec: decoding is strict). -/
def decodeBaseOutput (s : List Nat) : Except CodecErr (BaseOutput × List Nat) := do
  let (amtBytes, s) ← readFull 8 s
  let (hash, s) ← readFull 32 s
  let (idxBytes, s) ← readFull 4 s
  let (wtBytes, s) ← readFull 2 s
  let (sd, s) ← readSignDescriptor s
  .ok (⟨intOfU64 (beToNat amtBytes), ⟨hash, beToNat idxBytes⟩, beToNat wtBytes,
    sd⟩, s)

/-- `ContractOutput` (contractcourt source): a `BaseOutput` plus a
32-byte preimage. -/
structure ContractOutput where
  preimage : List Nat
  base : BaseOutput
  deriving DecidableEq, Repr

/-- `ContractOutput.Encode` (source): the embedded base output followed
by the 32 preimage bytes (the Go array write always emits all 32). -/
def encodeContractOutput (c : ContractOutput) : List Nat :=
  encodeBaseOutput c.base ++
    (c.preimage.take 32 ++ List.replicate (32 - c.preimage.length) 0)

/-- `ContractOutput.Decode` (source): decode the base output, then
`io.ReadFull` the 32 preimage bytes ignoring a clean `io.EOF` — a stream
that ends right after the base output leaves the preimage at the array's
zero value, while a partial preimage (`io.ErrUnexpectedEOF`) still fails
the record. -/
def decodeContractOutput (s : List Nat) :
    Except CodecErr (ContractOutput × List Nat) := do
  let (base, s) ← decodeBaseOutput s
  match readFull 32 s with
  | .ok (p, s) => .ok (⟨p, base⟩, s)
  | .error .eof => .ok (⟨List.replicate 32 0, base⟩, s)
  | .error e => .error e

/-! ## Helper lemmas on the sweep builder -/

/-- The four witness kinds a kindergarten output can legitimately carry
(the nursery only ever stores these; anything else hits the warning
`default` arm of the partition switch). -/
def recognizedWitnessType (wt : Nat) : Prop :=
  wt = commitmentTimeLock ∨ wt = htlcOfferedTimeoutSecondLevel ∨
    wt = htlcAcceptedSuccessSecondLevel ∨ wt = htlcOfferedRemoteTimeout

instance (wt : Nat) : Decidable (recognizedWitnessType wt) := by
  unfold recognizedWitnessType
  infer_instance

theorem contains_replicate (n : Nat) (x : OutPoint) (h : 1 ≤ n) :
    (List.replicate n x).contains x = true := by
  cases n with
  | zero => omega
  | succ m => simp [List.replicate, List.contains_cons]

theorem hasDup_replicate (n : Nat) (x : OutPoint) (h : 2 ≤ n) :
    hasDup (List.replicate n x) = true := by
  cases n with
  | zero => omega
  | succ m =>
      simp only [List.replicate, hasDup]
      rw [contains_replicate m x (by omega)]
      simp

theorem checkTransactionSanity_dup (tx : MsgTx)
    (h : hasDup (tx.txIn.map (·.previousOutPoint)) = true) :
    isFail (checkTransactionSanity tx) = true := by
  unfold checkTransactionSanity
  split_ifs <;> simp_all

/-- The count partition of the range loop: every kept recognized output
lands in exactly one of the csv / cltv partitions. -/
theorem countP_partition (l : List KidOutput)
    (h : ∀ k ∈ l, recognizedWitnessType k.witnessType) :
    (l.countP fun input =>
        input.witnessType == commitmentTimeLock ||
          input.witnessType == htlcOfferedTimeoutSecondLevel ||
          input.witnessType == htlcAcceptedSuccessSecondLevel) +
      (l.countP fun input => input.witnessType == htlcOfferedRemoteTimeout) =
      l.length := by
  induction l with
  | nil => simp
  | cons x xs ih =>
      have hx := h x (by simp)
      have hxs := ih fun k hk => h k (by simp [hk])
      rcases hx with h1 | h1 | h1 | h1 <;>
        simp [List.countP_cons, h1, commitmentTimeLock,
          htlcOfferedTimeoutSecondLevel, htlcAcceptedSuccessSecondLevel,
          htlcOfferedRemoteTimeout] at * <;> omega

/-- With at least two (aliased) inputs, `populateSweepTx` hits the
duplicate-input arm of the sanity check, whatever the fee or height. -/
theorem populateSweepTx_replicate_fails (cfg : NurseryConfig)
    (txFee classHeight : Nat) (last : KidOutput) (c d : Nat)
    (h2 : 2 ≤ c + d) :
    isFail (populateSweepTx cfg txFee classHeight (List.replicate c last)
      (List.replicate d last)) = true := by
  unfold populateSweepTx
  cases hscript : cfg.genSweepScript with
  | error e => simp
  | ok pk =>
      simp only [exceptBindOk]
      have hdup := checkTransactionSanity_dup
        (assembleSweepTx pk txFee classHeight (List.replicate c last)
          (List.replicate d last))
        (by
          unfold assembleSweepTx
          simp only [List.map_append, List.map_replicate, ← List.replicate_add]
          exact hasDup_replicate _ _ h2)
      generalize hcheck :
        checkTransactionSanity (assembleSweepTx pk txFee classHeight
          (List.replicate c last) (List.replicate d last)) = res at hdup ⊢
      cases res with
      | error e => simp
      | ok u => simp at hdup

theorem createSweepTx_twoKept_fails (cfg : NurseryConfig)
    (kgtnOutputs : List KidOutput) (classHeight feePerKw : Nat)
    (hfee : cfg.estimateFeePerKW = .ok feePerKw)
    (hrec : ∀ k ∈ kgtnOutputs, recognizedWitnessType k.witnessType)
    (hkept : 2 ≤ (kgtnOutputs.filter fun input =>
        ! cfg.cutStrayInput feePerKw input).length) :
    isFail (createSweepTx cfg kgtnOutputs classHeight) = true := by
  have hne : kgtnOutputs ≠ [] := by
    intro hcon
    rw [hcon] at hkept
    simp at hkept
  obtain ⟨last, hlast⟩ : ∃ l, kgtnOutputs.getLast? = some l := by
    cases hq : kgtnOutputs.getLast? with
    | some l => exact ⟨l, rfl⟩
    | none =>
        rw [List.getLast?_eq_none_iff] at hq
        exact absurd hq hne
  have hcount := countP_partition
    (kgtnOutputs.filter fun input => ! cfg.cutStrayInput feePerKw input)
    (fun k hk => hrec k (List.mem_filter.mp hk).1)
  unfold createSweepTx
  rw [hfee]
  simp only [exceptBindOk, hlast]
  apply isFail_bind
  exact populateSweepTx_replicate_fails cfg _ classHeight last _ _ (by omega)

/-! ## Concrete inputs used by the witnesses and counterexamples -/

def opA : OutPoint := ⟨List.replicate 32 5, 1⟩

def opB : OutPoint := ⟨List.replicate 32 6, 2⟩

def kidA : KidOutput :=
  ⟨⟨500000, opA, commitmentTimeLock, 77⟩, opB, false, 144, 0, 1000⟩

def txA : MsgTx :=
  ⟨2, [⟨opB, 4294967295, [[0, 1]]⟩], [⟨[0, 20, 9], 40000⟩], 0⟩

def babyA : BabyOutput := ⟨200, txA, kidA⟩

/-- A kid carrying a witness-type code outside the known enum. -/
def kidU : KidOutput := ⟨⟨800, opA, 999, 12⟩, opB, true, 5, 0, 9⟩

/-! ## Claim C6 -/

/-- C6: for every KidOutput and every BabyOutput, decoding the bytes
produced by Encode yields a value equal to the original (encode followed
by decode is the identity on Kid and Baby outputs). -/
theorem claim_C6 :
    (∀ k : KidOutput, WFKidOutput k → decodeKid (encodeKid k) = .ok (k, [])) ∧
    ∀ b : BabyOutput, WFBabyOutput b → decodeBaby (encodeBaby b) = .ok (b, []) := by
  constructor
  · intro k hk
    have h := decodeKid_encode k [] hk
    rw [List.append_nil] at h
    exact h
  · intro b hb
    have h := decodeBaby_encode b [] hb
    rw [List.append_nil] at h
    exact h

theorem claim_C6_witness :
    (WFKidOutput kidA ∧ decodeKid (encodeKid kidA) = .ok (kidA, [])) ∧
    WFBabyOutput babyA ∧ decodeBaby (encodeBaby babyA) = .ok (babyA, []) := by
  have h1 : WFKidOutput kidA := by decide
  have h2 : WFBabyOutput babyA := by decide
  exact ⟨⟨h1, claim_C6.1 kidA h1⟩, h2, claim_C6.2 babyA h2⟩

/-! ## Claim C7 -/

/-- C7 counterexample: the serialized outpoint is not the raw 32 hash
bytes followed by the index — `wire.WriteVarBytes` inserts a one-byte
varint length prefix (0x20) — and a record carrying the unknown
witness-type code 999 decodes without error. -/
theorem claim_C7_counterexample :
    writeOutpoint opA ≠ opA.hash ++ natToBe 4 opA.index ∧
    writeOutpoint opA = 32 :: (opA.hash ++ natToBe 4 opA.index) ∧
    decodeKid (encodeKid kidU) = .ok (kidU, []) := by decide

/-- C7 as amended: KidOutput decoding fails on every truncated stream;
witness-type codes are not validated (any `u16` value decodes back
unchanged); and each outpoint is serialized as a one-byte varint length
prefix (0x20) followed by the 32 raw hash bytes and the big-endian `u32`
index. -/
theorem claim_C7 :
    (∀ k : KidOutput, WFKidOutput k → ∀ n, n < (encodeKid k).length →
        isFail (decodeKid ((encodeKid k).take n)) = true) ∧
    (∀ k : KidOutput, WFKidOutput k → decodeKid (encodeKid k) = .ok (k, [])) ∧
    ∀ o : OutPoint, WFOutPoint o →
      writeOutpoint o = 32 :: (o.hash ++ natToBe 4 o.index) := by
  refine ⟨fun k hk n hn => decodeKid_truncFails k hk n hn,
    fun k hk => ?_, fun o ho => ?_⟩
  · have h := decodeKid_encode k [] hk
    rw [List.append_nil] at h
    exact h
  · unfold writeOutpoint writeVarBytes
    rw [ho.1]
    norm_num [writeVarInt]

theorem claim_C7_witness :
    (WFKidOutput kidU ∧ 50 < (encodeKid kidU).length ∧
      isFail (decodeKid ((encodeKid kidU).take 50)) = true ∧
      decodeKid (encodeKid kidU) = .ok (kidU, [])) ∧
    WFOutPoint opA ∧ writeOutpoint opA = 32 :: (opA.hash ++ natToBe 4 opA.index) := by
  have h1 : WFKidOutput kidU := by decide
  have h2 : 50 < (encodeKid kidU).length := by decide
  have h3 : WFOutPoint opA := by decide
  exact ⟨⟨h1, h2, claim_C7.1 kidU h1 50 h2, claim_C7.2.1 kidU h1⟩, h3,
    claim_C7.2.2 opA h3⟩

/-! ## Claim C1 -/

def cfgC1 : NurseryConfig :=
  { estimateFeePerKW := .ok 10000
    genSweepScript := .ok [0, 20, 1, 2]
    cutStrayInput := fun _ _ => false
    buildWitness := fun _ _ _ => .ok [[1, 2]]
    publishResult := fun _ => none
    registerConfOk := true
    bestHeight := 0 }

def kidCsvC1 : KidOutput :=
  ⟨⟨500000, opA, commitmentTimeLock, 3⟩, opB, false, 144, 0, 400⟩

def kidCltvC1 : KidOutput :=
  ⟨⟨600000, ⟨List.replicate 32 9, 7⟩, htlcOfferedRemoteTimeout, 4⟩, opB, true,
    0, 500, 0⟩

/-- C1 at the scenario-S5 input (one csv kid with csv delay 144 and one
remote-timeout kid, both surviving the stray filter): instead of the
promised two-input sweep with distinct outpoints, `createSweepTx` fails
the duplicate-input sanity check, because every appended input pointer
dereferences to the loop variable's final value. -/
theorem claim_C1 :
    createSweepTx cfgC1 [kidCsvC1, kidCltvC1] 500 =
      .error (.sanity .duplicateInputs) := by decide

/-! ## Claim C4 -/

/-- C4: in `createSweepTx`, every pointer appended inside the range loop
aliases the single loop variable, so whenever at least two kindergarten
outputs (of the recognized witness kinds) survive the stray filter, all
assembled inputs carry one and the same previous outpoint, the
duplicate-input sanity check fails, and `createSweepTx` returns an error
instead of a transaction. -/
theorem claim_C4 (cfg : NurseryConfig) (kgtnOutputs : List KidOutput)
    (classHeight feePerKw : Nat)
    (hfee : cfg.estimateFeePerKW = .ok feePerKw)
    (hrec : ∀ k ∈ kgtnOutputs, recognizedWitnessType k.witnessType)
    (hkept : 2 ≤ (kgtnOutputs.filter fun input =>
        ! cfg.cutStrayInput feePerKw input).length) :
    isFail (createSweepTx cfg kgtnOutputs classHeight) = true :=
  createSweepTx_twoKept_fails cfg kgtnOutputs classHeight feePerKw hfee hrec hkept

def cfgC4 : NurseryConfig :=
  { estimateFeePerKW := .ok 10000
    genSweepScript := .ok [0, 20, 4]
    cutStrayInput := fun _ _ => false
    buildWitness := fun _ _ _ => .ok [[3]]
    publishResult := fun _ => none
    registerConfOk := true
    bestHeight := 0 }

def kidC4a : KidOutput :=
  ⟨⟨400000, opA, commitmentTimeLock, 5⟩, opB, false, 100, 0, 300⟩

def kidC4b : KidOutput :=
  ⟨⟨300000, ⟨List.replicate 32 7, 4⟩, htlcAcceptedSuccessSecondLevel, 6⟩, opB,
    true, 20, 0, 310⟩

theorem claim_C4_witness :
    cfgC4.estimateFeePerKW = .ok 10000 ∧
    (∀ k ∈ [kidC4a, kidC4b], recognizedWitnessType k.witnessType) ∧
    2 ≤ ([kidC4a, kidC4b].filter fun input =>
        ! cfgC4.cutStrayInput 10000 input).length ∧
    isFail (createSweepTx cfgC4 [kidC4a, kidC4b] 600) = true := by
  have h1 : cfgC4.estimateFeePerKW = .ok 10000 := rfl
  have h2 : ∀ k ∈ [kidC4a, kidC4b], recognizedWitnessType k.witnessType := by
    decide
  have h3 : 2 ≤ ([kidC4a, kidC4b].filter fun input =>
      ! cfgC4.cutStrayInput 10000 input).length := by decide
  exact ⟨h1, h2, h3, claim_C4 cfgC4 [kidC4a, kidC4b] 600 10000 h1 h2 h3⟩

/-! ## Claim C3 -/

def cfgC3 : NurseryConfig :=
  { estimateFeePerKW := .ok 100
    genSweepScript := .ok [0, 20, 3]
    cutStrayInput := fun _ k => decide (k.amount ≤ 1000)
    buildWitness := fun _ _ _ => .ok [[7]]
    publishResult := fun _ => none
    registerConfOk := true
    bestHeight := 0 }

def keptKidC3 : KidOutput :=
  ⟨⟨500000, opA, commitmentTimeLock, 8⟩, opB, false, 144, 0, 700⟩

def strayKidC3 : KidOutput :=
  ⟨⟨600, ⟨List.replicate 32 8, 3⟩, commitmentTimeLock, 9⟩, opB, false, 10, 0,
    710⟩

/-- The previous outpoints of the sweep transaction built at the C3
failing input (empty when the build errors). -/
def sweptPrevOutsC3 : List OutPoint :=
  match createSweepTx cfgC3 [keptKidC3, strayKidC3] 300 with
  | .ok (tx, _) => tx.txIn.map (·.previousOutPoint)
  | .error _ => []

/-- C3 at the failing input: `strayKidC3` is diverted by
`CutStrayInput` (and `keptKidC3` is not), yet the sweep transaction that
is built spends exactly the diverted output — the aliased loop pointer
makes the single retained input dereference to the last iterated
(diverted) output, so the diverted output is not excluded from the
sweep's inputs. -/
theorem claim_C3 :
    cfgC3.cutStrayInput 100 strayKidC3 = true ∧
    cfgC3.cutStrayInput 100 keptKidC3 = false ∧
    sweptPrevOutsC3 = [strayKidC3.outPoint] ∧
    strayKidC3.outPoint ≠ keptKidC3.outPoint := by decide

/-! ## Claim C2 -/

/-- The store invariant behind txid stability: a height holds a
finalized record only if `LastFinalizedHeight` has reached it. -/
def WFNurseryStore (s : NurseryStore) : Prop :=
  ∀ h, (s.finalizedTxns h).isSome → h ≤ s.lastFinalizedHeight

theorem WFNurseryStore_graduateHeight (s : NurseryStore) (h : Nat)
    (hwf : WFNurseryStore s) : WFNurseryStore (graduateHeight s h) := by
  intro x hx
  exact hwf x hx

theorem finalizeKinder_ok_char (s : NurseryStore) (h : Nat)
    (ftx : Option MsgTx) (s1 : NurseryStore)
    (hok : finalizeKinder s h ftx = .ok s1) :
    s1.finalizedTxns = (fun x => if x = h then ftx else s.finalizedTxns x) ∧
      s1.lastFinalizedHeight = max s.lastFinalizedHeight h ∧
      s1.lastGraduatedHeight = s.lastGraduatedHeight ∧
      s1.kndrAtHeight = s.kndrAtHeight ∧ s1.cribAtHeight = s.cribAtHeight := by
  unfold finalizeKinder at hok
  split at hok
  · simp at hok
  · injection hok with hok
    subst hok
    exact ⟨rfl, rfl, rfl, rfl, rfl⟩

theorem sweepMatureOutputs_ok_shape (cfg : NurseryConfig) (h : Nat)
    (tx : MsgTx) (evs : List Event)
    (hok : sweepMatureOutputs cfg h tx = .ok evs) :
    evs = [.publishedSweep tx, .registeredSweepConf tx h] := by
  unfold sweepMatureOutputs registerSweepConf at hok
  cases hpub : cfg.publishResult tx with
  | none =>
      rw [hpub] at hok
      cases hreg : cfg.registerConfOk <;> rw [hreg] at hok <;> simp at hok
      exact hok.symm
  | some e =>
      cases e with
      | doubleSpend =>
          rw [hpub] at hok
          cases hreg : cfg.registerConfOk <;> rw [hreg] at hok <;> simp at hok
          exact hok.symm
      | other c =>
          rw [hpub] at hok
          simp at hok

theorem sweepCribOutput_ok_shape (cfg : NurseryConfig) (h : Nat)
    (baby : BabyOutput) (evs : List Event)
    (hok : sweepCribOutput cfg h baby = .ok evs) :
    evs = [.publishedTimeout baby.timeoutTx, .registeredTimeoutConf h] := by
  unfold sweepCribOutput registerTimeoutConf at hok
  cases hpub : cfg.publishResult baby.timeoutTx with
  | none =>
      rw [hpub] at hok
      cases hreg : cfg.registerConfOk <;> rw [hreg] at hok <;> simp at hok
      exact hok.symm
  | some e =>
      cases e with
      | doubleSpend =>
          rw [hpub] at hok
          cases hreg : cfg.registerConfOk <;> rw [hreg] at hok <;> simp at hok
          exact hok.symm
      | other c =>
          rw [hpub] at hok
          simp at hok

theorem sweepCribs_ok_events (cfg : NurseryConfig) (h : Nat) :
    ∀ (cribs : List BabyOutput) (evs : List Event),
      sweepCribs cfg h cribs = .ok evs →
      ∀ e ∈ evs, (∃ tx, e = .publishedTimeout tx) ∨ ∃ hh, e = .registeredTimeoutConf hh := by
  intro cribs
  induction cribs with
  | nil =>
      intro evs hok e he
      unfold sweepCribs at hok
      simp at hok
      subst hok
      simp at he
  | cons b rest ih =>
      intro evs hok e he
      unfold sweepCribs at hok
      cases h1 : sweepCribOutput cfg h b with
      | error _ => rw [h1] at hok; simp at hok
      | ok evs1 =>
          rw [h1] at hok
          cases h2 : sweepCribs cfg h rest with
          | error _ => rw [h2] at hok; simp at hok
          | ok evs2 =>
              rw [h2] at hok
              simp at hok
              subst hok
              rw [sweepCribOutput_ok_shape cfg h b evs1 h1] at he
              simp at he
              rcases he with he | he | he
              · exact Or.inl ⟨_, he⟩
              · exact Or.inr ⟨_, he⟩
              · exact ih evs2 h2 e he

/-- Operational characterization of one `graduateClass` run: at an
already-finalized height the store transition is the pure
`graduateHeight` and the trace re-publishes the stored transaction; at a
fresh height the transition goes through one `finalizeKinder` write. -/
theorem graduateClass_char (cfg : NurseryConfig) (s : NurseryStore) (hq : Nat)
    (s' : NurseryStore) (t : List Event)
    (hrun : graduateClass cfg s hq = .ok (s', t)) :
    (hq ≤ s.lastFinalizedHeight →
      ∃ evs2 evs3,
        s' = graduateHeight s hq ∧
        t = .graduateCall hq :: ([] ++ evs2 ++ evs3 ++ [.graduatedHeight hq]) ∧
        (∀ tx, s.finalizedTxns hq = some tx →
          sweepMatureOutputs cfg hq tx = .ok evs2) ∧
        (s.finalizedTxns hq = none → evs2 = []) ∧
        sweepCribs cfg hq (s.cribAtHeight hq) = .ok evs3) ∧
    (s.lastFinalizedHeight < hq →
      ∃ ftx s1, finalizeKinder s hq ftx = .ok s1 ∧ s' = graduateHeight s1 hq) := by
  unfold graduateClass at hrun
  simp only [fetchClass] at hrun
  constructor
  · intro hle
    rw [if_neg (by omega)] at hrun
    simp only [exceptBindOk] at hrun
    cases hfx : s.finalizedTxns hq with
    | none =>
        rw [hfx] at hrun
        simp only [exceptBindOk] at hrun
        cases hc : sweepCribs cfg hq (s.cribAtHeight hq) with
        | error e => rw [hc] at hrun; simp at hrun
        | ok evs3 =>
            rw [hc] at hrun
            simp only [exceptBindOk] at hrun
            injection hrun with hrun
            injection hrun with h1 h2
            exact ⟨[], evs3, h1.symm, by simp [← h2], by simp,
              fun _ => rfl, rfl⟩
    | some tx0 =>
        rw [hfx] at hrun
        simp only [exceptBindOk] at hrun
        cases hm : sweepMatureOutputs cfg hq tx0 with
        | error e => rw [hm] at hrun; simp at hrun
        | ok evs2 =>
            rw [hm] at hrun
            simp only [exceptBindOk] at hrun
            cases hc : sweepCribs cfg hq (s.cribAtHeight hq) with
            | error e => rw [hc] at hrun; simp at hrun
            | ok evs3 =>
                rw [hc] at hrun
                simp only [exceptBindOk] at hrun
                injection hrun with hrun
                injection hrun with h1 h2
                refine ⟨evs2, evs3, h1.symm, by simp [← h2], ?_, ?_, rfl⟩
                · intro tx htx
                  injection htx with htx
                  rw [← htx]
                  exact hm
                · intro hnone
                  simp at hnone
  · intro hgt
    rw [if_pos (by omega)] at hrun
    simp only [exceptBindOk] at hrun
    by_cases hk : (s.kndrAtHeight hq).length > 0
    · rw [if_pos hk] at hrun
      cases hcr : createSweepTx cfg (s.kndrAtHeight hq) hq with
      | error e => rw [hcr] at hrun; simp at hrun
      | ok p =>
          rw [hcr] at hrun
          simp only [exceptBindOk] at hrun
          cases hfin : finalizeKinder s hq (some p.1) with
          | error e =>
              rw [hfin] at hrun
              simp at hrun
          | ok s1 =>
              rw [hfin] at hrun
              simp only [exceptBindOk] at hrun
              cases hm : sweepMatureOutputs cfg hq p.1 with
              | error e => rw [hm] at hrun; simp at hrun
              | ok evs2 =>
                  rw [hm] at hrun
                  simp only [exceptBindOk] at hrun
                  cases hc : sweepCribs cfg hq (s.cribAtHeight hq) with
                  | error e => rw [hc] at hrun; simp at hrun
                  | ok evs3 =>
                      rw [hc] at hrun
                      simp only [exceptBindOk] at hrun
                      injection hrun with hrun
                      injection hrun with h1 h2
                      exact ⟨some p.1, s1, hfin, h1.symm⟩
    · rw [if_neg hk] at hrun
      cases hfin : finalizeKinder s hq (s.finalizedTxns hq) with
      | error e => rw [hfin] at hrun; simp at hrun
      | ok s1 =>
          rw [hfin] at hrun
          simp only [exceptBindOk] at hrun
          cases hfx : s.finalizedTxns hq with
          | none =>
              rw [hfx] at hrun
              simp only [exceptBindOk] at hrun
              cases hc : sweepCribs cfg hq (s.cribAtHeight hq) with
              | error e => rw [hc] at hrun; simp at hrun
              | ok evs3 =>
                  rw [hc] at hrun
                  simp only [exceptBindOk] at hrun
                  injection hrun with hrun
                  injection hrun with h1 h2
                  exact ⟨s.finalizedTxns hq, s1, hfin, h1.symm⟩
          | some tx0 =>
              rw [hfx] at hrun
              simp only [exceptBindOk] at hrun
              cases hm : sweepMatureOutputs cfg hq tx0 with
              | error e => rw [hm] at hrun; simp at hrun
              | ok evs2 =>
                  rw [hm] at hrun
                  simp only [exceptBindOk] at hrun
                  cases hc : sweepCribs cfg hq (s.cribAtHeight hq) with
                  | error e => rw [hc] at hrun; simp at hrun
                  | ok evs3 =>
                      rw [hc] at hrun
                      simp only [exceptBindOk] at hrun
                      injection hrun with hrun
                      injection hrun with h1 h2
                      exact ⟨s.finalizedTxns hq, s1, hfin, h1.symm⟩

/-- C2: `graduateClass` signs a new sweep and calls `FinalizeKinder`
only for heights strictly above `LastFinalizedHeight`; once a height's
finalized sweep is non-nil it is returned unchanged by every subsequent
`FetchClass`, and replaying `graduateClass` at that height rebroadcasts
exactly the stored transaction without signing a new one. -/
theorem claim_C2 (cfg : NurseryConfig) (s : NurseryStore) (hq : Nat)
    (hWF : WFNurseryStore s) (s' : NurseryStore) (t : List Event)
    (hrun : graduateClass cfg s hq = .ok (s', t)) :
    WFNurseryStore s' ∧
    (hq ≤ s.lastFinalizedHeight →
      (∀ x tx0, Event.finalizedKinder x tx0 ∉ t) ∧
      ∀ x, Event.createdSweep x ∉ t) ∧
    ∀ h tx, s.finalizedTxns h = some tx →
      (fetchClass s' h).1 = some tx ∧
      (hq = h → Event.publishedSweep tx ∈ t ∧
        (∀ tx', Event.publishedSweep tx' ∈ t → tx' = tx) ∧
        ∀ x, Event.createdSweep x ∉ t) := by
  obtain ⟨hchar1, hchar2⟩ := graduateClass_char cfg s hq s' t hrun
  rcases le_or_lt hq s.lastFinalizedHeight with hle | hgt
  · obtain ⟨evs2, evs3, hs', ht, hsome, hnone, hc⟩ := hchar1 hle
    subst hs'
    have hevs2 : ∀ e ∈ evs2,
        (∃ tx, e = .publishedSweep tx) ∨
          ∃ tx hh, e = .registeredSweepConf tx hh := by
      cases hfx : s.finalizedTxns hq with
      | none =>
          intro e he
          rw [hnone hfx] at he
          simp at he
      | some tx0 =>
          intro e he
          rw [sweepMatureOutputs_ok_shape cfg hq tx0 evs2 (hsome tx0 hfx)] at he
          simp at he
          rcases he with he | he
          · exact Or.inl ⟨tx0, he⟩
          · exact Or.inr ⟨tx0, hq, he⟩
    have hevs3 := sweepCribs_ok_events cfg hq _ evs3 hc
    have hnoFin : ∀ x tx0, Event.finalizedKinder x tx0 ∉ t := by
      intro x tx0 hmem
      rw [ht] at hmem
      simp at hmem
      rcases hmem with hmem | hmem
      · rcases hevs2 _ hmem with ⟨tx, he⟩ | ⟨tx, hh, he⟩ <;> simp at he
      · rcases hevs3 _ hmem with ⟨tx, he⟩ | ⟨hh, he⟩ <;> simp at he
    have hnoCreate : ∀ x, Event.createdSweep x ∉ t := by
      intro x hmem
      rw [ht] at hmem
      simp at hmem
      rcases hmem with hmem | hmem
      · rcases hevs2 _ hmem with ⟨tx, he⟩ | ⟨tx, hh, he⟩ <;> simp at he
      · rcases hevs3 _ hmem with ⟨tx, he⟩ | ⟨hh, he⟩ <;> simp at he
    refine ⟨WFNurseryStore_graduateHeight s hq hWF,
      fun _ => ⟨hnoFin, hnoCreate⟩, ?_⟩
    intro h tx htx
    refine ⟨htx, ?_⟩
    intro heq
    subst heq
    have hshape := sweepMatureOutputs_ok_shape cfg hq tx evs2 (hsome tx htx)
    refine ⟨?_, ?_, hnoCreate⟩
    · rw [ht, hshape]
      simp
    · intro tx' hmem
      rw [ht] at hmem
      simp at hmem
      rcases hmem with hmem | hmem
      · rw [hshape] at hmem
        simp at hmem
        exact hmem
      · rcases hevs3 _ hmem with ⟨tx2, he⟩ | ⟨hh, he⟩ <;> simp at he
  · obtain ⟨ftx, s1, hfin, hs'⟩ := hchar2 hgt
    obtain ⟨hf1, hf2, _, _, _⟩ := finalizeKinder_ok_char s hq ftx s1 hfin
    subst hs'
    constructor
    · intro x hx
      have hx1 : (s1.finalizedTxns x).isSome := hx
      rw [congrFun hf1 x] at hx1
      show x ≤ s1.lastFinalizedHeight
      rw [hf2]
      by_cases hxq : x = hq
      · simp [hxq, le_max_iff]
      · rw [if_neg hxq] at hx1
        have := hWF x hx1
        simp [le_max_iff]
        omega
    constructor
    · intro hle
      omega
    · intro h tx htx
      have hne : h ≠ hq := by
        have := hWF h (by rw [htx]; rfl)
        omega
      constructor
      · show s1.finalizedTxns h = some tx
        rw [congrFun hf1 h, if_neg hne]
        exact htx
      · intro heq
        omega

def tx2 : MsgTx := ⟨2, [⟨opA, 144, [[9]]⟩], [⟨[0, 20, 2], 490000⟩], 0⟩

def cfgC2 : NurseryConfig :=
  { estimateFeePerKW := .ok 100
    genSweepScript := .ok [0, 20, 5]
    cutStrayInput := fun _ _ => false
    buildWitness := fun _ _ _ => .ok [[2]]
    publishResult := fun _ => none
    registerConfOk := true
    bestHeight := 0 }

def storeC2 : NurseryStore :=
  { finalizedTxns := fun x => if x = 7 then some tx2 else none
    lastFinalizedHeight := 7
    lastGraduatedHeight := 6
    kndrAtHeight := fun _ => []
    cribAtHeight := fun _ => []
    heightIndex := [7] }

theorem claim_C2_witness :
    ∃ s2 t2, graduateClass cfgC2 storeC2 7 = .ok (s2, t2) ∧
      WFNurseryStore s2 ∧ (fetchClass s2 7).1 = some tx2 ∧
      Event.publishedSweep tx2 ∈ t2 ∧ ∀ x, Event.createdSweep x ∉ t2 := by
  have hWF : WFNurseryStore storeC2 := by
    intro h hh
    by_cases hx : h = 7
    · simp [storeC2, hx]
    · simp [storeC2, hx] at hh
  have hrun : graduateClass cfgC2 storeC2 7 =
      .ok (graduateHeight storeC2 7,
        Event.graduateCall 7 ::
          ([] ++ [Event.publishedSweep tx2, Event.registeredSweepConf tx2 7] ++
            [] ++ [Event.graduatedHeight 7])) := rfl
  have H := claim_C2 cfgC2 storeC2 7 hWF _ _ hrun
  have hst := H.2.2 7 tx2 (by simp [storeC2])
  exact ⟨_, _, hrun, H.1, hst.1, (hst.2 rfl).1, (hst.2 rfl).2.2⟩

/-! ## Claim C5 -/

/-- Whether an event records a `regraduateClass` / `graduateClass`
invocation. -/
def isCallMarker : Event → Bool
  | .regraduateCall _ => true
  | .graduateCall _ => true
  | _ => false

/-- The subsequence of invocation markers in a trace. -/
def callMarkers (t : List Event) : List Event := t.filter isCallMarker

@[simp] theorem callMarkers_nil : callMarkers [] = [] := rfl

theorem callMarkers_append (a b : List Event) :
    callMarkers (a ++ b) = callMarkers a ++ callMarkers b := by
  simp [callMarkers]

theorem callMarkers_eq_nil (l : List Event)
    (h : ∀ e ∈ l, isCallMarker e = false) : callMarkers l = [] := by
  unfold callMarkers
  rw [List.filter_eq_nil_iff]
  intro e he
  simp [h e he]

theorem createSweepTx_ok_trace (cfg : NurseryConfig) (kgtn : List KidOutput)
    (ch : Nat) (tx : MsgTx) (evs : List Event)
    (hok : createSweepTx cfg kgtn ch = .ok (tx, evs)) :
    ∃ d, evs = Event.createdSweep ch :: List.map Event.divertedToStrayPool d := by
  unfold createSweepTx at hok
  cases hfee : cfg.estimateFeePerKW with
  | error e => rw [hfee] at hok; simp at hok
  | ok fee =>
      rw [hfee] at hok
      simp only [exceptBindOk] at hok
      cases hpop : populateSweepTx cfg
          (feeForWeight fee
            (TxWeightEstimator.vsize
              ((kgtn.filter fun input => ! cfg.cutStrayInput fee input).foldl
                (fun e input => e.addWitnessInputByType input.witnessType)
                (TxWeightEstimator.addP2WKHOutput {})))) ch
          (match kgtn.getLast? with
            | some last => List.replicate ((kgtn.filter fun input =>
                ! cfg.cutStrayInput fee input).countP fun input =>
                  input.witnessType == commitmentTimeLock ||
                    input.witnessType == htlcOfferedTimeoutSecondLevel ||
                    input.witnessType == htlcAcceptedSuccessSecondLevel) last
            | none => [])
          (match kgtn.getLast? with
            | some last => List.replicate ((kgtn.filter fun input =>
                ! cfg.cutStrayInput fee input).countP fun input =>
                  input.witnessType == htlcOfferedRemoteTimeout) last
            | none => []) with
      | error e => rw [hpop] at hok; simp at hok
      | ok tx2 =>
          rw [hpop] at hok
          simp only [exceptBindOk] at hok
          injection hok with hok
          injection hok with h1 h2
          exact ⟨_, h2.symm⟩

/-- Full trace characterization of one `graduateClass` run: the head is
the invocation marker and no later event is a marker. -/
theorem graduateClass_ok_trace (cfg : NurseryConfig) (s : NurseryStore)
    (hq : Nat) (s' : NurseryStore) (t : List Event)
    (hrun : graduateClass cfg s hq = .ok (s', t)) :
    ∃ rest, t = Event.graduateCall hq :: rest ∧
      ∀ e ∈ rest, isCallMarker e = false := by
  unfold graduateClass at hrun
  simp only [fetchClass] at hrun
  have hsweep : ∀ (tx : MsgTx) (evs : List Event),
      sweepMatureOutputs cfg hq tx = .ok evs →
      ∀ e ∈ evs, isCallMarker e = false := by
    intro tx evs hok e he
    rw [sweepMatureOutputs_ok_shape cfg hq tx evs hok] at he
    simp at he
    rcases he with he | he <;> subst he <;> rfl
  have hcrib : ∀ (cribs : List BabyOutput) (evs : List Event),
      sweepCribs cfg hq cribs = .ok evs →
      ∀ e ∈ evs, isCallMarker e = false := by
    intro cribs evs hok e he
    rcases sweepCribs_ok_events cfg hq cribs evs hok e he with ⟨tx, hx⟩ | ⟨hh, hx⟩ <;>
      subst hx <;> rfl
  by_cases hgt : hq > s.lastFinalizedHeight
  · rw [if_pos hgt] at hrun
    by_cases hk : (s.kndrAtHeight hq).length > 0
    · rw [if_pos hk] at hrun
      cases hcr : createSweepTx cfg (s.kndrAtHeight hq) hq with
      | error e => rw [hcr] at hrun; simp at hrun
      | ok p =>
          rw [hcr] at hrun
          simp only [exceptBindOk] at hrun
          obtain ⟨d, hd⟩ := createSweepTx_ok_trace cfg _ hq p.1 p.2
            (by rw [hcr])
          cases hfin : finalizeKinder s hq (some p.1) with
          | error e => rw [hfin] at hrun; simp at hrun
          | ok s1 =>
              rw [hfin] at hrun
              simp only [exceptBindOk] at hrun
              cases hm : sweepMatureOutputs cfg hq p.1 with
              | error e => rw [hm] at hrun; simp at hrun
              | ok evs2 =>
                  rw [hm] at hrun
                  simp only [exceptBindOk] at hrun
                  cases hc : sweepCribs cfg hq (s.cribAtHeight hq) with
                  | error e => rw [hc] at hrun; simp at hrun
                  | ok evs3 =>
                      rw [hc] at hrun
                      simp only [exceptBindOk] at hrun
                      injection hrun with hrun
                      injection hrun with h1 h2
                      refine ⟨_, h2.symm, ?_⟩
                      intro e he
                      simp [hd] at he
                      rcases he with he | he | he | he | he
                      · subst he; rfl
                      · obtain ⟨k, _, he⟩ := he; subst he; rfl
                      · subst he; rfl
                      · exact hsweep p.1 evs2 hm e he
                      · rcases he with he | he
                        · exact hcrib _ evs3 hc e he
                        · subst he; rfl
    · rw [if_neg hk] at hrun
      simp only [exceptBindOk] at hrun
      cases hfin : finalizeKinder s hq (s.finalizedTxns hq) with
      | error e => rw [hfin] at hrun; simp at hrun
      | ok s1 =>
          rw [hfin] at hrun
          simp only [exceptBindOk] at hrun
          cases hfx : s.finalizedTxns hq with
          | none =>
              rw [hfx] at hrun
              simp only [exceptBindOk] at hrun
              cases hc : sweepCribs cfg hq (s.cribAtHeight hq) with
              | error e => rw [hc] at hrun; simp at hrun
              | ok evs3 =>
                  rw [hc] at hrun
                  simp only [exceptBindOk] at hrun
                  injection hrun with hrun
                  injection hrun with h1 h2
                  refine ⟨_, h2.symm, ?_⟩
                  intro e he
                  simp at he
                  rcases he with he | he | he
                  · subst he; rfl
                  · exact hcrib _ evs3 hc e he
                  · subst he; rfl
          | some tx0 =>
              rw [hfx] at hrun
              simp only [exceptBindOk] at hrun
              cases hm : sweepMatureOutputs cfg hq tx0 with
              | error e => rw [hm] at hrun; simp at hrun
              | ok evs2 =>
                  rw [hm] at hrun
                  simp only [exceptBindOk] at hrun
                  cases hc : sweepCribs cfg hq (s.cribAtHeight hq) with
                  | error e => rw [hc] at hrun; simp at hrun
                  | ok evs3 =>
                      rw [hc] at hrun
                      simp only [exceptBindOk] at hrun
                      injection hrun with hrun
                      injection hrun with h1 h2
                      refine ⟨_, h2.symm, ?_⟩
                      intro e he
                      simp at he
                      rcases he with he | he | he | he
                      · subst he; rfl
                      · exact hsweep tx0 evs2 hm e he
                      · exact hcrib _ evs3 hc e he
                      · subst he; rfl
  · rw [if_neg hgt] at hrun
    simp only [exceptBindOk] at hrun
    cases hfx : s.finalizedTxns hq with
    | none =>
        rw [hfx] at hrun
        simp only [exceptBindOk] at hrun
        cases hc : sweepCribs cfg hq (s.cribAtHeight hq) with
        | error e => rw [hc] at hrun; simp at hrun
        | ok evs3 =>
            rw [hc] at hrun
            simp only [exceptBindOk] at hrun
            injection hrun with hrun
            injection hrun with h1 h2
            refine ⟨_, h2.symm, ?_⟩
            intro e he
            simp at he
            rcases he with he | he
            · exact hcrib _ evs3 hc e he
            · subst he; rfl
    | some tx0 =>
        rw [hfx] at hrun
        simp only [exceptBindOk] at hrun
        cases hm : sweepMatureOutputs cfg hq tx0 with
        | error e => rw [hm] at hrun; simp at hrun
        | ok evs2 =>
            rw [hm] at hrun
            simp only [exceptBindOk] at hrun
            cases hc : sweepCribs cfg hq (s.cribAtHeight hq) with
            | error e => rw [hc] at hrun; simp at hrun
            | ok evs3 =>
                rw [hc] at hrun
                simp only [exceptBindOk] at hrun
                injection hrun with hrun
                injection hrun with h1 h2
                refine ⟨_, h2.symm, ?_⟩
                intro e he
                simp at he
                rcases he with he | he | he
                · exact hsweep tx0 evs2 hm e he
                · exact hcrib _ evs3 hc e he
                · subst he; rfl

theorem regraduateClass_ok_trace (cfg : NurseryConfig) (s : NurseryStore)
    (hq : Nat) (t : List Event)
    (hrun : regraduateClass cfg s hq = .ok t) :
    ∃ rest, t = Event.regraduateCall hq :: rest ∧
      ∀ e ∈ rest, isCallMarker e = false := by
  unfold regraduateClass at hrun
  simp only [fetchClass] at hrun
  have hsweep : ∀ (tx : MsgTx) (evs : List Event),
      sweepMatureOutputs cfg hq tx = .ok evs →
      ∀ e ∈ evs, isCallMarker e = false := by
    intro tx evs hok e he
    rw [sweepMatureOutputs_ok_shape cfg hq tx evs hok] at he
    simp at he
    rcases he with he | he <;> subst he <;> rfl
  cases hfx : s.finalizedTxns hq with
  | none =>
      rw [hfx] at hrun
      simp only [exceptBindOk] at hrun
      cases hc : sweepCribs cfg hq (s.cribAtHeight hq) with
      | error e => rw [hc] at hrun; simp at hrun
      | ok evs3 =>
          rw [hc] at hrun
          simp only [exceptBindOk] at hrun
          injection hrun with hrun
          refine ⟨_, hrun.symm, ?_⟩
          intro e he
          simp at he
          rcases sweepCribs_ok_events cfg hq _ evs3 hc e he with ⟨tx, hx⟩ | ⟨hh, hx⟩ <;>
            subst hx <;> rfl
  | some tx0 =>
      rw [hfx] at hrun
      simp only [exceptBindOk] at hrun
      cases hm : sweepMatureOutputs cfg hq tx0 with
      | error e => rw [hm] at hrun; simp at hrun
      | ok evs2 =>
          rw [hm] at hrun
          simp only [exceptBindOk] at hrun
          cases hc : sweepCribs cfg hq (s.cribAtHeight hq) with
          | error e => rw [hc] at hrun; simp at hrun
          | ok evs3 =>
              rw [hc] at hrun
              simp only [exceptBindOk] at hrun
              injection hrun with hrun
              refine ⟨_, hrun.symm, ?_⟩
              intro e he
              simp at he
              rcases he with he | he
              · exact hsweep tx0 evs2 hm e he
              · rcases sweepCribs_ok_events cfg hq _ evs3 hc e he with
                  ⟨tx, hx⟩ | ⟨hh, hx⟩ <;> subst hx <;> rfl

theorem regraduateAll_markers (cfg : NurseryConfig) (s : NurseryStore) :
    ∀ (hs : List Nat) (t : List Event), regraduateAll cfg s hs = .ok t →
      callMarkers t = hs.map Event.regraduateCall := by
  intro hs
  induction hs with
  | nil =>
      intro t hrun
      unfold regraduateAll at hrun
      injection hrun with hrun
      subst hrun
      rfl
  | cons h rest ih =>
      intro t hrun
      unfold regraduateAll at hrun
      cases h1 : regraduateClass cfg s h with
      | error e => rw [h1] at hrun; simp at hrun
      | ok evs =>
          rw [h1] at hrun
          simp only [exceptBindOk] at hrun
          cases h2 : regraduateAll cfg s rest with
          | error e => rw [h2] at hrun; simp at hrun
          | ok evsRest =>
              rw [h2] at hrun
              simp only [exceptBindOk] at hrun
              injection hrun with hrun
              subst hrun
              obtain ⟨r, hr, hrm⟩ := regraduateClass_ok_trace cfg s h evs h1
              rw [callMarkers_append, ih evsRest h2, hr]
              simp only [callMarkers, List.filter_cons]
              have hnil : List.filter isCallMarker r = [] := by
                have hx := callMarkers_eq_nil r hrm
                simpa [callMarkers] using hx
              simp [isCallMarker, hnil]

theorem graduateClassesGo_markers (cfg : NurseryConfig) :
    ∀ (n : Nat) (s : NurseryStore) (cur : Nat) (s' : NurseryStore)
      (t : List Event), graduateClassesGo cfg s cur n = .ok (s', t) →
      callMarkers t = (List.range' cur n).map Event.graduateCall := by
  intro n
  induction n with
  | zero =>
      intro s cur s' t hrun
      unfold graduateClassesGo at hrun
      injection hrun with hrun
      injection hrun with h1 h2
      rw [← h2]
      simp
  | succ m ih =>
      intro s cur s' t hrun
      unfold graduateClassesGo at hrun
      cases h1 : graduateClass cfg s cur with
      | error e => rw [h1] at hrun; simp at hrun
      | ok p =>
          rw [h1] at hrun
          simp only [exceptBindOk] at hrun
          cases h2 : graduateClassesGo cfg p.1 (cur + 1) m with
          | error e => rw [h2] at hrun; simp at hrun
          | ok q =>
              rw [h2] at hrun
              simp only [exceptBindOk] at hrun
              injection hrun with hrun
              injection hrun with hs ht
              rw [← ht, callMarkers_append]
              obtain ⟨r, hr, hrm⟩ := graduateClass_ok_trace cfg s cur p.1 p.2
                (by rw [h1])
              rw [hr]
              simp only [callMarkers, List.filter_cons]
              have hrec := ih p.1 (cur + 1) q.1 q.2 (by rw [h2])
              have hnil : List.filter isCallMarker r = [] := by
                have hx := callMarkers_eq_nil r hrm
                simpa [callMarkers] using hx
              have hrec2 : List.filter isCallMarker q.2 =
                  List.map Event.graduateCall (List.range' (cur + 1) m) := by
                simpa [callMarkers] using hrec
              rw [List.range'_succ]
              simp [isCallMarker, hnil, hrec2]

theorem graduateClassesFromTo_markers (cfg : NurseryConfig) (s : NurseryStore)
    (cur stop : Nat) (s' : NurseryStore) (t : List Event)
    (hrun : graduateClassesFromTo cfg s cur stop = .ok (s', t)) :
    callMarkers t = (List.range' cur (stop + 1 - cur)).map Event.graduateCall :=
  graduateClassesGo_markers cfg (stop + 1 - cur) s cur s' t hrun

/-- C5 as amended: when at least one height has ever been graduated
(`1 ≤ G`) and the chain tip `B` is above `G`, `reloadClasses` first
invokes `regraduateClass` for every still-active height at most `G` (in
stored order) and then invokes `graduateClass` once for every height
`G+1, ..., B` in ascending order; when `G = 0` the whole replay is
skipped. -/
theorem claim_C5 (cfg : NurseryConfig) (s : NurseryStore) (G : Nat)
    (s' : NurseryStore) (t : List Event) (hG : 1 ≤ G)
    (hB : G < cfg.bestHeight)
    (hrun : reloadClasses cfg s G = .ok (s', t)) :
    callMarkers t =
      (heightsBelowOrEqual s G).map Event.regraduateCall ++
        (List.range' (G + 1) (cfg.bestHeight - G)).map Event.graduateCall := by
  unfold reloadClasses at hrun
  simp only [exceptBindOk] at hrun
  cases hA : regraduateAll cfg s (heightsBelowOrEqual s G) with
  | error e => rw [hA] at hrun; simp at hrun
  | ok evsA =>
      rw [hA] at hrun
      simp only [exceptBindOk] at hrun
      rw [if_neg (by omega)] at hrun
      cases hBres : graduateClassesFromTo cfg s (G + 1) cfg.bestHeight with
      | error e => rw [hBres] at hrun; simp at hrun
      | ok q =>
          rw [hBres] at hrun
          simp only [exceptBindOk] at hrun
          injection hrun with hrun
          injection hrun with h1 h2
          rw [← h2, callMarkers_append,
            regraduateAll_markers cfg s _ evsA hA,
            graduateClassesFromTo_markers cfg s (G + 1) cfg.bestHeight q.1 q.2
              (by rw [hBres])]
          rw [show cfg.bestHeight + 1 - (G + 1) = cfg.bestHeight - G from by omega]

def cfgC5z : NurseryConfig :=
  { estimateFeePerKW := .ok 1
    genSweepScript := .ok [0]
    cutStrayInput := fun _ _ => false
    buildWitness := fun _ _ _ => .ok []
    publishResult := fun _ => none
    registerConfOk := true
    bestHeight := 1 }

def storeC5z : NurseryStore :=
  { finalizedTxns := fun _ => none
    lastFinalizedHeight := 0
    lastGraduatedHeight := 0
    kndrAtHeight := fun _ => []
    cribAtHeight := fun _ => []
    heightIndex := [] }

/-- C5 counterexample: with `LastGraduatedHeight = 0` and best height
`1 > 0`, the claim demands one `graduateClass(1)` invocation, but
`reloadClasses` takes its `lastGradHeight == 0` early exit and invokes
nothing at all. -/
theorem claim_C5_counterexample :
    cfgC5z.bestHeight = 1 ∧
    reloadClasses cfgC5z storeC5z 0 = .ok (storeC5z, []) ∧
    Event.graduateCall 1 ∉ ([] : List Event) :=
  ⟨rfl, rfl, by simp⟩

def cfgC5 : NurseryConfig :=
  { estimateFeePerKW := .ok 100
    genSweepScript := .ok [0, 20, 6]
    cutStrayInput := fun _ _ => false
    buildWitness := fun _ _ _ => .ok [[5]]
    publishResult := fun _ => none
    registerConfOk := true
    bestHeight := 12 }

def storeC5 : NurseryStore :=
  { finalizedTxns := fun _ => none
    lastFinalizedHeight := 0
    lastGraduatedHeight := 10
    kndrAtHeight := fun _ => []
    cribAtHeight := fun _ => []
    heightIndex := [3] }

theorem claim_C5_witness :
    ∃ s' t, reloadClasses cfgC5 storeC5 10 = .ok (s', t) ∧
      1 ≤ 10 ∧ 10 < cfgC5.bestHeight ∧
      callMarkers t =
        (heightsBelowOrEqual storeC5 10).map Event.regraduateCall ++
          (List.range' 11 (cfgC5.bestHeight - 10)).map Event.graduateCall := by
  cases hres : reloadClasses cfgC5 storeC5 10 with
  | error e =>
      have hfail : isFail (reloadClasses cfgC5 storeC5 10) = false := by decide
      rw [hres] at hfail
      simp at hfail
  | ok p =>
      refine ⟨p.1, p.2, rfl, by norm_num, by decide, ?_⟩
      exact claim_C5 cfgC5 storeC5 10 p.1 p.2 (by norm_num) (by decide)
        (hres.trans rfl)

/-! ## Claim C8 -/

/-- C8: when broadcasting a finalized sweep (`sweepMatureOutputs`) or a
crib timeout transaction (`sweepCribOutput`), an `ErrDoubleSpend` result
from `PublishTransaction` is ignored and processing continues to
confirmation registration (identically to a clean broadcast), while any
other broadcast error is returned, aborting the current class. -/
theorem claim_C8 (cfg : NurseryConfig) (h : Nat) (tx : MsgTx)
    (baby : BabyOutput) :
    (cfg.publishResult tx = some .doubleSpend ∨ cfg.publishResult tx = none →
      sweepMatureOutputs cfg h tx =
        (do
          let evs ← registerSweepConf cfg tx h
          .ok (.publishedSweep tx :: evs))) ∧
    (∀ c, cfg.publishResult tx = some (.other c) →
      sweepMatureOutputs cfg h tx = .error (.publish (.other c))) ∧
    (cfg.publishResult baby.timeoutTx = some .doubleSpend ∨
        cfg.publishResult baby.timeoutTx = none →
      sweepCribOutput cfg h baby =
        (do
          let evs ← registerTimeoutConf cfg h
          .ok (.publishedTimeout baby.timeoutTx :: evs))) ∧
    ∀ c, cfg.publishResult baby.timeoutTx = some (.other c) →
      sweepCribOutput cfg h baby = .error (.publish (.other c)) := by
  refine ⟨?_, ?_, ?_, ?_⟩
  · intro hpub
    unfold sweepMatureOutputs
    rcases hpub with hpub | hpub <;> rw [hpub]
  · intro c hpub
    unfold sweepMatureOutputs
    rw [hpub]
  · intro hpub
    unfold sweepCribOutput
    rcases hpub with hpub | hpub <;> rw [hpub]
  · intro c hpub
    unfold sweepCribOutput
    rw [hpub]

def cfgC8 : NurseryConfig :=
  { estimateFeePerKW := .ok 100
    genSweepScript := .ok [0, 20, 8]
    cutStrayInput := fun _ _ => false
    buildWitness := fun _ _ _ => .ok [[8]]
    publishResult := fun tx => if tx.lockTime = 1 then some .doubleSpend
      else some (.other 42)
    registerConfOk := true
    bestHeight := 0 }

def txC8a : MsgTx := ⟨2, [⟨opA, 144, []⟩], [⟨[0, 20], 1000⟩], 1⟩

def txC8b : MsgTx := ⟨2, [⟨opA, 144, []⟩], [⟨[0, 20], 1000⟩], 2⟩

def babyC8a : BabyOutput := ⟨7, txC8a, kidA⟩

def babyC8b : BabyOutput := ⟨7, txC8b, kidA⟩

theorem claim_C8_witness :
    (cfgC8.publishResult txC8a = some .doubleSpend ∧
      sweepMatureOutputs cfgC8 9 txC8a =
        (do
          let evs ← registerSweepConf cfgC8 txC8a 9
          .ok (.publishedSweep txC8a :: evs))) ∧
    (cfgC8.publishResult txC8b = some (.other 42) ∧
      sweepMatureOutputs cfgC8 9 txC8b = .error (.publish (.other 42))) ∧
    (sweepCribOutput cfgC8 9 babyC8a =
      (do
        let evs ← registerTimeoutConf cfgC8 9
        .ok (.publishedTimeout babyC8a.timeoutTx :: evs))) ∧
    sweepCribOutput cfgC8 9 babyC8b = .error (.publish (.other 42)) := by
  have ha : cfgC8.publishResult txC8a = some .doubleSpend := by decide
  have hb : cfgC8.publishResult txC8b = some (.other 42) := by decide
  have hab : cfgC8.publishResult babyC8a.timeoutTx = some .doubleSpend := by
    decide
  have hbb : cfgC8.publishResult babyC8b.timeoutTx = some (.other 42) := by
    decide
  exact ⟨⟨ha, (claim_C8 cfgC8 9 txC8a babyC8a).1 (Or.inl ha)⟩,
    ⟨hb, (claim_C8 cfgC8 9 txC8b babyC8b).2.1 42 hb⟩,
    (claim_C8 cfgC8 9 txC8a babyC8a).2.2.1 (Or.inl hab),
    (claim_C8 cfgC8 9 txC8b babyC8b).2.2.2 42 hbb⟩

/-! ## Claim C10 -/

theorem readFull_extend (n : Nat) (s r t a : List Nat)
    (h : readFull n s = .ok (a, t)) :
    readFull n (s ++ r) = .ok (a, t ++ r) := by
  unfold readFull at h ⊢
  split at h
  · next hle =>
      injection h with h
      injection h with h1 h2
      rw [if_pos (by simp; omega)]
      rw [← h1, ← h2]
      simp [List.take_append_of_le_length hle, List.drop_append_of_le_length hle]
  · split at h <;> cases h

theorem readSignDescriptor_extend (s r t : List Nat) (sd : Nat)
    (h : readSignDescriptor s = .ok (sd, t)) :
    readSignDescriptor (s ++ r) = .ok (sd, t ++ r) := by
  unfold readSignDescriptor at h ⊢
  cases hf : readFull 8 s with
  | error e => rw [hf] at h; simp at h
  | ok p =>
      rw [hf] at h
      simp only [exceptBindOk] at h
      injection h with h
      injection h with h1 h2
      rw [readFull_extend 8 s r p.2 p.1 (by rw [hf])]
      simp only [exceptBindOk]
      rw [h1, h2]

theorem decodeBaseOutput_extend (s r t : List Nat) (b : BaseOutput)
    (h : decodeBaseOutput s = .ok (b, t)) :
    decodeBaseOutput (s ++ r) = .ok (b, t ++ r) := by
  unfold decodeBaseOutput at h ⊢
  cases h1 : readFull 8 s with
  | error e => rw [h1] at h; simp at h
  | ok p1 =>
      rw [h1] at h
      simp only [exceptBindOk] at h
      rw [readFull_extend 8 s r p1.2 p1.1 (by rw [h1])]
      simp only [exceptBindOk]
      cases h2 : readFull 32 p1.2 with
      | error e => rw [h2] at h; simp at h
      | ok p2 =>
          rw [h2] at h
          simp only [exceptBindOk] at h
          rw [readFull_extend 32 p1.2 r p2.2 p2.1 (by rw [h2])]
          simp only [exceptBindOk]
          cases h3 : readFull 4 p2.2 with
          | error e => rw [h3] at h; simp at h
          | ok p3 =>
              rw [h3] at h
              simp only [exceptBindOk] at h
              rw [readFull_extend 4 p2.2 r p3.2 p3.1 (by rw [h3])]
              simp only [exceptBindOk]
              cases h4 : readFull 2 p3.2 with
              | error e => rw [h4] at h; simp at h
              | ok p4 =>
                  rw [h4] at h
                  simp only [exceptBindOk] at h
                  rw [readFull_extend 2 p3.2 r p4.2 p4.1 (by rw [h4])]
                  simp only [exceptBindOk]
                  cases h5 : readSignDescriptor p4.2 with
                  | error e => rw [h5] at h; simp at h
                  | ok p5 =>
                      rw [h5] at h
                      simp only [exceptBindOk] at h
                      rw [readSignDescriptor_extend p4.2 r p5.2 p5.1
                        (by rw [h5])]
                      simp only [exceptBindOk]
                      injection h with h
                      injection h with ha hb
                      rw [ha, hb]

/-- C10: `ContractOutput.Decode` tolerates a missing preimage — a stream
that ends right after a well-formed base output decodes successfully
with an all-zero preimage, identical to the value decoded from the same
stream followed by 32 explicit zero bytes — even though
`ContractOutput.Encode` always appends exactly 32 preimage bytes. -/
theorem claim_C10 :
    (∀ (s : List Nat) (b : BaseOutput), decodeBaseOutput s = .ok (b, []) →
      decodeContractOutput s = .ok (⟨List.replicate 32 0, b⟩, [])) ∧
    (∀ (s : List Nat) (b : BaseOutput), decodeBaseOutput s = .ok (b, []) →
      decodeContractOutput (s ++ List.replicate 32 0) =
        .ok (⟨List.replicate 32 0, b⟩, [])) ∧
    ∀ c : ContractOutput,
      (encodeContractOutput c).length = (encodeBaseOutput c.base).length + 32 := by
  refine ⟨?_, ?_, ?_⟩
  · intro s b hbase
    unfold decodeContractOutput
    rw [hbase]
    simp only [exceptBindOk]
    rfl
  · intro s b hbase
    unfold decodeContractOutput
    rw [decodeBaseOutput_extend s (List.replicate 32 0) [] b hbase]
    simp only [exceptBindOk]
    rw [List.nil_append,
      show readFull 32 (List.replicate 32 0) =
        .ok (List.replicate 32 0, []) from by
          conv_lhs => rw [show (List.replicate 32 0 : List Nat) =
            List.replicate 32 0 ++ [] from (List.append_nil _).symm]
          exact readFull_exact 32 _ [] (by simp)]
  · intro c
    unfold encodeContractOutput
    rcases le_or_lt c.preimage.length 32 with hle | hgt
    · simp [List.length_append, List.length_take]
      omega
    · simp [List.length_append, List.length_take]
      omega

def baseC10 : BaseOutput := ⟨250000, opA, htlcAcceptedRemoteSuccess, 55⟩

theorem claim_C10_witness :
    decodeBaseOutput (encodeBaseOutput baseC10) = .ok (baseC10, []) ∧
    decodeContractOutput (encodeBaseOutput baseC10) =
      .ok (⟨List.replicate 32 0, baseC10⟩, []) ∧
    decodeContractOutput (encodeBaseOutput baseC10 ++ List.replicate 32 0) =
      .ok (⟨List.replicate 32 0, baseC10⟩, []) ∧
    (encodeContractOutput ⟨List.replicate 32 0, baseC10⟩).length =
      (encodeBaseOutput baseC10).length + 32 := by
  have hbase : decodeBaseOutput (encodeBaseOutput baseC10) = .ok (baseC10, []) := by
    decide
  exact ⟨hbase, claim_C10.1 _ baseC10 hbase, claim_C10.2.1 _ baseC10 hbase,
    claim_C10.2.2 ⟨List.replicate 32 0, baseC10⟩⟩

/-! ## Claim C9 -/

theorem mapIdx_setWitness_out (l : List TxIn) (n : Nat) (w : List (List Nat))
    (h : l.length ≤ n) :
    List.mapIdx (fun i t => if i = n then { t with witness := w } else t) l = l := by
  rw [List.mapIdx_eq_iff]
  intro i
  cases hl : l[i]? with
  | none => simp
  | some x =>
      have hi : i < l.length := by
        by_contra hcon
        rw [List.getElem?_eq_none (by omega)] at hl
        cases hl
      simp [hl, if_neg (by omega : ¬ i = n)]

theorem setWitness_concat (txn : MsgTx) (inp : TxIn) (w : List (List Nat)) :
    (setWitness { txn with txIn := txn.txIn ++ [inp] } txn.txIn.length w).txIn =
      txn.txIn ++ [{ inp with witness := w }] := by
  unfold setWitness
  simp only [List.mapIdx_concat, mapIdx_setWitness_out txn.txIn txn.txIn.length w
    (le_refl _)]
  simp

/-- Invariants of the `genSweepTx` input loop, relative to the
transaction assembled so far. -/
theorem poolAddInputs_spec (cfg : PoolConfig) :
    ∀ (outs : List BaseOutput) (txn : MsgTx) (est : TxWeightEstimator)
      (total : Int) (txn2 : MsgTx) (est2 : TxWeightEstimator) (total2 : Int),
      poolAddInputs cfg outs txn txn.txIn.length est total =
        .ok (txn2, est2, total2) →
      txn2.version = txn.version ∧ txn2.lockTime = txn.lockTime ∧
      txn2.txOut = txn.txOut ∧
      txn2.txIn.map (·.previousOutPoint) =
        txn.txIn.map (·.previousOutPoint) ++ outs.map (·.outpoint) ∧
      total2 = (outs.map (·.amt)).foldl (· + ·) total ∧
      est2 = outs.foldl (fun e o => e.addWitnessInputByType o.witnessType) est ∧
      (∀ i, i < txn.txIn.length → txn2.txIn[i]? = txn.txIn[i]?) ∧
      ∀ j o, outs[j]? = some o →
        ∃ ptx txi, txn2.txIn[txn.txIn.length + j]? = some txi ∧
          cfg.buildWitness o ptx (txn.txIn.length + j) = .ok txi.witness := by
  intro outs
  induction outs with
  | nil =>
      intro txn est total txn2 est2 total2 hrun
      unfold poolAddInputs at hrun
      injection hrun with hrun
      injection hrun with h1 hrun
      injection hrun with h2 h3
      subst h1
      subst h2
      subst h3
      refine ⟨rfl, rfl, rfl, by simp, by simp, rfl, fun i _ => rfl, ?_⟩
      intro j o hj
      simp at hj
  | cons o rest ih =>
      intro txn est total txn2 est2 total2 hrun
      unfold poolAddInputs at hrun
      simp only [exceptBindOk] at hrun
      cases hw : cfg.buildWitness o
          { txn with txIn := txn.txIn ++ [{ previousOutPoint := o.outpoint }] }
          txn.txIn.length with
      | error e => rw [hw] at hrun; simp at hrun
      | ok w =>
          rw [hw] at hrun
          simp only [exceptBindOk] at hrun
          have hlen : txn.txIn.length + 1 =
              (setWitness
                { txn with txIn := txn.txIn ++ [{ previousOutPoint := o.outpoint }] }
                txn.txIn.length w).txIn.length := by
            rw [setWitness_concat]
            simp
          rw [hlen] at hrun
          have hx := ih _ _ _ _ _ _ hrun
          obtain ⟨hv, hl, ho, hprev, htot, hest, hpre, hwit⟩ := hx
          have htxIn := setWitness_concat txn
            { previousOutPoint := o.outpoint } w
          have hver2 : (setWitness
              { txn with txIn := txn.txIn ++ [{ previousOutPoint := o.outpoint }] }
              txn.txIn.length w).version = txn.version := rfl
          have hout2 : (setWitness
              { txn with txIn := txn.txIn ++ [{ previousOutPoint := o.outpoint }] }
              txn.txIn.length w).txOut = txn.txOut := rfl
          have hlock2 : (setWitness
              { txn with txIn := txn.txIn ++ [{ previousOutPoint := o.outpoint }] }
              txn.txIn.length w).lockTime = txn.lockTime := rfl
          refine ⟨hv.trans hver2, hl.trans hlock2, ho.trans hout2, ?_, ?_, ?_,
            ?_, ?_⟩
          · rw [hprev, htxIn]
            simp
          · rw [htot]
            simp
          · rw [hest]
            simp
          · intro i hi
            have h1 := hpre i (by rw [htxIn]; simp; omega)
            rw [h1, htxIn, List.getElem?_append_left (by omega)]
          · intro j o2 hj
            cases j with
            | zero =>
                simp at hj
                subst hj
                have h1 := hpre txn.txIn.length (by rw [htxIn]; simp)
                rw [htxIn, List.getElem?_append_right (by omega)] at h1
                simp at h1
                refine ⟨{ txn with
                    txIn := txn.txIn ++ [{ previousOutPoint := o.outpoint }] },
                  _, by rw [Nat.add_zero, h1], ?_⟩
                rw [Nat.add_zero, hw]
            | succ m =>
                simp at hj
                obtain ⟨ptx, txi, hget, hbw⟩ := hwit m o2 hj
                refine ⟨ptx, txi, ?_, ?_⟩
                · rw [← hget, htxIn]
                  congr 1
                  simp
                  omega
                · rw [← hbw]
                  congr 1
                  rw [htxIn]
                  simp
                  omega

/-- When the fee estimator and the input loop succeed but the sanity
check fails, `genSweepTx` returns the sanity error. -/
theorem poolGenSweepTxWith_sanity_err (cfg : PoolConfig) (pk : List Nat)
    (outs : List BaseOutput) (fee : Nat) (txn2 : MsgTx)
    (est2 : TxWeightEstimator) (total2 : Int) (e : SanityErr)
    (hfee : cfg.estimateFeePerKW = .ok fee)
    (hrun : poolAddInputs cfg outs { version := 2, txIn := [], txOut := [] } 0
      (TxWeightEstimator.addP2WKHOutput {}) 0 = .ok (txn2, est2, total2))
    (hsan : checkTransactionSanity { txn2 with txOut := txn2.txOut ++
        [⟨pk, total2 - feeForWeight fee est2.weight⟩] } = .error e) :
    poolGenSweepTxWith cfg pk outs = .error (.sanity e) := by
  unfold poolGenSweepTxWith
  rw [hfee]
  simp only [exceptBindOk]
  rw [hrun]
  simp only [exceptBindOk]
  rw [hsan]

/-- When the fee estimator, the input loop and the sanity check all
succeed, `genSweepTx` returns the assembled transaction: the input-loop
result with the single sweep output (paying the accumulated total minus
the fee for the estimated weight) appended. -/
theorem poolGenSweepTxWith_sanity_ok (cfg : PoolConfig) (pk : List Nat)
    (outs : List BaseOutput) (fee : Nat) (txn2 : MsgTx)
    (est2 : TxWeightEstimator) (total2 : Int)
    (hfee : cfg.estimateFeePerKW = .ok fee)
    (hrun : poolAddInputs cfg outs { version := 2, txIn := [], txOut := [] } 0
      (TxWeightEstimator.addP2WKHOutput {}) 0 = .ok (txn2, est2, total2))
    (hsan : checkTransactionSanity { txn2 with txOut := txn2.txOut ++
        [⟨pk, total2 - feeForWeight fee est2.weight⟩] } = .ok ()) :
    poolGenSweepTxWith cfg pk outs = .ok { txn2 with txOut := txn2.txOut ++
        [⟨pk, total2 - feeForWeight fee est2.weight⟩] } := by
  unfold poolGenSweepTxWith
  rw [hfee]
  simp only [exceptBindOk]
  rw [hrun]
  simp only [exceptBindOk]
  rw [hsan]

/-- **C9.** For every store state, `PoolServer.Sweep` builds a single
transaction whose inputs are exactly the stored stray outputs in order,
whose single appended output pays the accumulated input total minus the
fee computed (at the 6-block-target fee rate) from a weight estimate
starting with one P2WKH output and adding per-input witness weight by
witness kind; every input carries the witness produced for it by the
output's witness builder at its index; the sanity check's error is
returned when it fails, and otherwise the transaction is broadcast, with
a broadcast failure propagated and the broadcast transaction returned on
success. -/
theorem claim_C9 (cfg : PoolConfig) (outs : List BaseOutput) (fee : Nat)
    (pk : List Nat) (txn2 : MsgTx) (est2 : TxWeightEstimator) (total2 : Int)
    (hfee : cfg.estimateFeePerKW = .ok fee)
    (hpk : cfg.genSweepScript = .ok pk)
    (hrun : poolAddInputs cfg outs { version := 2, txIn := [], txOut := [] } 0
      (TxWeightEstimator.addP2WKHOutput {}) 0 = .ok (txn2, est2, total2)) :
    txn2.txIn.map (fun i => i.previousOutPoint) = outs.map (fun o => o.outpoint) ∧
    txn2.txOut = [] ∧
    total2 = (outs.map (fun o => o.amt)).foldl (· + ·) 0 ∧
    est2 = outs.foldl (fun e o => e.addWitnessInputByType o.witnessType)
      (TxWeightEstimator.addP2WKHOutput {}) ∧
    (∀ j o, outs[j]? = some o → ∃ ptx txi, txn2.txIn[j]? = some txi ∧
      cfg.buildWitness o ptx j = .ok txi.witness) ∧
    (∀ e, checkTransactionSanity { txn2 with txOut :=
        [⟨pk, total2 - feeForWeight fee est2.weight⟩] } = .error e →
      poolSweep cfg outs = .error (.sanity e)) ∧
    (checkTransactionSanity { txn2 with txOut :=
        [⟨pk, total2 - feeForWeight fee est2.weight⟩] } = .ok () →
      (cfg.publishResult { txn2 with txOut :=
          [⟨pk, total2 - feeForWeight fee est2.weight⟩] } = none →
        poolSweep cfg outs =
          .ok { txn2 with txOut := [⟨pk, total2 - feeForWeight fee est2.weight⟩] }) ∧
      ∀ pe, cfg.publishResult { txn2 with txOut :=
          [⟨pk, total2 - feeForWeight fee est2.weight⟩] } = some pe →
        poolSweep cfg outs = .error (.publish pe)) := by
  obtain ⟨hv, hl, ho, hprev, htot, hest, hpre, hwit⟩ :=
    poolAddInputs_spec cfg outs { version := 2, txIn := [], txOut := [] }
      (TxWeightEstimator.addP2WKHOutput {}) 0 txn2 est2 total2 hrun
  have hoe : txn2.txOut = [] := ho.trans rfl
  have hgen0 : poolGenSweepTx cfg outs = poolGenSweepTxWith cfg pk outs := by
    unfold poolGenSweepTx
    rw [hpk]
    simp only [exceptBindOk]
  refine ⟨by simpa using hprev, hoe, htot, hest, ?_, ?_, ?_⟩
  · intro j o hj
    obtain ⟨ptx, txi, h1, h2⟩ := hwit j o hj
    exact ⟨ptx, txi, by simpa using h1, by simpa using h2⟩
  · intro e he
    have hgen := poolGenSweepTxWith_sanity_err cfg pk outs fee txn2 est2
      total2 e hfee hrun (by rw [hoe, List.nil_append]; exact he)
    unfold poolSweep
    rw [hgen0, hgen]
    rfl
  · intro hsan
    have hgen := poolGenSweepTxWith_sanity_ok cfg pk outs fee txn2 est2
      total2 hfee hrun (by rw [hoe, List.nil_append]; exact hsan)
    rw [hoe, List.nil_append] at hgen
    constructor
    · intro hpub
      unfold poolSweep
      rw [hgen0, hgen]
      simp only [exceptBindOk]
      rw [hpub]
    · intro pe hpub
      unfold poolSweep
      rw [hgen0, hgen]
      simp only [exceptBindOk]
      rw [hpub]

def pk9 : List Nat := 0 :: 20 :: List.replicate 20 7

def base9a : BaseOutput := ⟨400000, opA, commitmentTimeLock, 11⟩

def base9b : BaseOutput := ⟨300000, opB, htlcOfferedRemoteTimeout, 12⟩

def cfg9 : PoolConfig :=
  { estimateFeePerKW := .ok 1000
    genSweepScript := .ok pk9
    buildWitness := fun o _ idx => .ok [[idx + 1], natToBe 2 o.witnessType]
    publishResult := fun _ => none }

def tx9in : MsgTx :=
  { version := 2
    txIn := [⟨opA, 0, [[1], natToBe 2 commitmentTimeLock]⟩,
             ⟨opB, 0, [[2], natToBe 2 htlcOfferedRemoteTimeout]⟩]
    txOut := [] }

def est9 : TxWeightEstimator := ⟨124, 1374⟩

def tx9 : MsgTx :=
  { version := 2
    txIn := [⟨opA, 0, [[1], natToBe 2 commitmentTimeLock]⟩,
             ⟨opB, 0, [[2], natToBe 2 htlcOfferedRemoteTimeout]⟩]
    txOut := [⟨pk9, 698460⟩] }

theorem claim_C9_witness :
    poolSweep cfg9 [base9a, base9b] = .ok tx9 ∧
    tx9.txIn.map (fun i => i.previousOutPoint) = [opA, opB] ∧
    tx9.txOut = [⟨pk9, (700000 : Int) - feeForWeight 1000 est9.weight⟩] := by
  obtain ⟨-, -, -, -, -, -, hok⟩ :=
    claim_C9 cfg9 [base9a, base9b] 1000 pk9 tx9in est9 700000 rfl rfl (by decide)
  have h2 := (hok (by decide)).1 (by decide)
  exact ⟨h2.trans (by decide), by decide, by decide⟩

end LndNursery
